import Mathlib

/-!
# Chunked bulk transfer coordinator

A shallow embedding of `src/lib/src/libusb-cpp/libusbchunkedbulktransfer.cpp`.

* `LibUsbChunkedBulkTransferPrivate` is the private class: the four `int` counters and
  the vector of transfer descriptors.
* The transport driver (libusb) is the environment.  Its answers are inputs of the
  model: the return code of every submission and cancellation request (`Driver`), and
  the list of event-dispatch calls still to come (`Dispatch`), each with the completions
  it delivers, its return code and the wall-clock time elapsed when it returns.
* `World` is the coordinator state together with the calls made to the driver so far
  and the dispatch calls the driver will still answer.

Conventions.  `size_t` is 64 bits wide and its arithmetic wraps (`sizeWrap`); `int` is
32 bits wide.  The length of a descriptor is libusb's `int length`: the constructor's
`ssize_t size` is narrowed to it (`toInt32`).  The byte count `actualLength` is an `int`
that wraps in two's complement when a sum leaves its range (`toInt32`), as it does on
the target.  The counters `done` and `pending` count operations and are kept as
integers.  Addresses are integers and pointer arithmetic is exact.  The clock is read
through the
driver's answers: each dispatch call carries the elapsed time in milliseconds, which
`wait` compares with its timeout.  Callbacks run inside dispatch calls only.  A polling
loop for which the driver has no further completion is the result `none`: `wait` does
not return.  Diagnostics written to `stderr` are left out.
-/

namespace LibUsbChunked

/-- Largest value of `size_t`. -/
def SIZE_MAX : Nat := 2 ^ 64 - 1

/-- Result of a `size_t` computation: reduction modulo `2 ^ 64`. -/
def sizeWrap (x : Nat) : Nat := x % 2 ^ 64

/-- Largest value of `int`. -/
def INT_MAX : Nat := 2147483647

/-- Smallest value of `int`. -/
def INT_MIN : Int := -2147483648

/-- The value an integer takes in an `int`: reduction modulo `2 ^ 32` into the range
`INT_MIN ... INT_MAX`. -/
def toInt32 (x : Int) : Int := (x + 2147483648) % 4294967296 - 2147483648

/-- The libusb return code of a successful call. -/
def LIBUSB_SUCCESS : Int := 0

/-- The libusb return code of an interrupted event dispatch. -/
def LIBUSB_ERROR_INTERRUPTED : Int := -10

/-- Values of `libusb_transfer_status`. -/
inductive TransferStatus where
  | completed
  | error
  | timedOut
  | cancelled
  | stall
  | noDevice
  | overflow
  deriving DecidableEq, Repr

/-- The fields of `libusb_transfer` the coordinator reads or writes. -/
structure Transfer where
  dev_handle : Nat
  endpoint : Nat
  buffer : Int
  length : Int
  timeout : Nat
  status : TransferStatus
  actual_length : Int
  deriving DecidableEq, Repr

/-- The class `LibUsbChunkedBulkTransferPrivate`: `pending` is the number of operations
the driver accepted this round, `done` the number of completions seen. -/
structure LibUsbChunkedBulkTransferPrivate where
  done : Int
  pending : Int
  completed : Int
  actualLength : Int
  transfers : List Transfer
  deriving DecidableEq, Repr

/-- A call made to the transport driver. -/
inductive DriverCall where
  | submitTransfer (index : Nat)
  | cancelTransfer (index : Nat)
  | handleEvents
  deriving DecidableEq, Repr

/-- One call of `libusb_handle_events_timeout_completed` as the driver answers it: the
transfers whose callback it runs (with the status and actual length it reports), its
return code, and the milliseconds elapsed since `wait` was entered when it returns. -/
structure Dispatch where
  completions : List Transfer
  rc : Int
  elapsedMs : Nat
  deriving DecidableEq, Repr

/-- The driver's answers to submission and cancellation requests, by operation index,
and the default argument of `wait` (declared in the header). -/
structure Driver where
  submitRc : Nat → Int
  cancelRc : Nat → Int
  waitDefault : Nat

/-- The coordinator with its environment: the private state, the driver calls made so
far, and the dispatch calls still to be answered. -/
structure World where
  d : LibUsbChunkedBulkTransferPrivate
  calls : List DriverCall
  script : List Dispatch
  deriving DecidableEq, Repr

namespace LibUsbChunkedBulkTransferPrivate

/-- The constructor's loop over the descriptors (lines 50-57): `count` descriptors are
left to fill, `pbuffer` is the running address and `length` the bytes not yet planned. -/
def fillTransfers (dev endpoint chunk timeout : Nat) : Nat → Int → Nat → List Transfer
  | 0, _, _ => []
  | count + 1, pbuffer, length =>
    let size := min chunk length
    { dev_handle := dev, endpoint := endpoint, buffer := pbuffer, length := toInt32 size,
      timeout := timeout, status := TransferStatus.completed, actual_length := 0 }
      :: fillTransfers dev endpoint chunk timeout count (pbuffer + size) (length - size)

/-- The constructor (lines 34-58): `(length + chunk - 1) / chunk` descriptors, the sum
computed in `size_t`. -/
def construct (dev endpoint : Nat) (buffer : Int) (length chunk timeout : Nat) :
    LibUsbChunkedBulkTransferPrivate :=
  { done := 0
    pending := 0
    completed := 1
    actualLength := 0
    transfers :=
      fillTransfers dev endpoint chunk timeout (sizeWrap (length + chunk - 1) / chunk)
        buffer length }

/-- The completion callback (lines 66-79). -/
def callback (d : LibUsbChunkedBulkTransferPrivate) (transfer : Transfer) :
    LibUsbChunkedBulkTransferPrivate :=
  let d0 := if transfer.status ≠ TransferStatus.completed then d else d
  let d1 := { d0 with actualLength := toInt32 (d0.actualLength + transfer.actual_length) }
  let d2 := { d1 with done := d1.done + 1 }
  if d2.done ≥ d2.pending then { d2 with completed := 1 } else d2

/-- The loop of the private `cancel` (lines 87-93) over the operation indices it visits:
a request is made for each, whatever the driver answers. -/
def cancelLoop (driver : Driver) : List Nat → List DriverCall
  | [] => []
  | i :: rest =>
    let rc := driver.cancelRc i
    if rc ≠ LIBUSB_SUCCESS then
      DriverCall.cancelTransfer i :: cancelLoop driver rest
    else
      DriverCall.cancelTransfer i :: cancelLoop driver rest

/-- The private `cancel` (lines 81-94): the requests it makes, for the operations from
`transfers.begin()` up to `transfers.begin() + pending`. -/
def cancel (driver : Driver) (d : LibUsbChunkedBulkTransferPrivate) : List DriverCall :=
  cancelLoop driver (List.range d.pending.toNat)

end LibUsbChunkedBulkTransferPrivate

namespace LibUsbChunkedBulkTransfer

open LibUsbChunkedBulkTransferPrivate

/-- The default constructor (lines 98-102). -/
def default (script : List Dispatch) : World :=
  { d := construct 0 0 0 0 1 0, calls := [], script := script }

/-- The constructor with arguments (lines 104-108). -/
def create (dev endpoint : Nat) (buffer : Int) (length chunk timeout : Nat)
    (script : List Dispatch) : World :=
  { d := construct dev endpoint buffer length chunk timeout, calls := [], script := script }

/-- The `while(!d->completed)` loop of `wait` (lines 168-194).  Each iteration takes the
next dispatch call from the script, runs the callbacks it delivers, and then looks at
its return code and at the elapsed time. -/
def waitLoop (driver : Driver) (timeout : Nat) :
    List Dispatch → LibUsbChunkedBulkTransferPrivate → List DriverCall → Option World
  | [], d, calls => if d.completed ≠ 0 then some ⟨d, calls, []⟩ else none
  | ev :: rest, d, calls =>
    if d.completed ≠ 0 then some ⟨d, calls, ev :: rest⟩
    else
      let d1 := ev.completions.foldl callback d
      let calls1 := calls ++ [DriverCall.handleEvents]
      if ev.rc < 0 then
        if ev.rc = LIBUSB_ERROR_INTERRUPTED then waitLoop driver timeout rest d1 calls1
        else waitLoop driver timeout rest d1 (calls1 ++ d1.cancel driver)
      else if timeout < ev.elapsedMs then
        waitLoop driver timeout rest d1 (calls1 ++ d1.cancel driver)
      else waitLoop driver timeout rest d1 calls1

/-- The method `wait` (lines 156-197). -/
def wait (driver : Driver) (timeout : Nat) (w : World) : Option World :=
  if w.d.pending = 0 then some w
  else
    match waitLoop driver timeout w.script w.d w.calls with
    | none => none
    | some w1 => some { w1 with d := { w1.d with pending := 0 } }

/-- The public `cancel` (lines 148-154): the private `cancel`, then `wait()`. -/
def cancel (driver : Driver) (w : World) : Option World :=
  wait driver driver.waitDefault { w with calls := w.calls ++ w.d.cancel driver }

/-- The loop of `submit` (lines 133-144): `i` is the index of the next operation. -/
def submitLoop (driver : Driver) : List Transfer → Nat → World → Option World
  | [], _, w => some w
  | _ :: rest, i, w =>
    let rc := driver.submitRc i
    let w1 := { w with calls := w.calls ++ [DriverCall.submitTransfer i] }
    if rc ≠ 0 then cancel driver w1
    else submitLoop driver rest (i + 1) { w1 with d := { w1.d with pending := w1.d.pending + 1 } }

/-- The tracker reset at the head of `submit` (lines 129-132). -/
def resetTracker (d : LibUsbChunkedBulkTransferPrivate) : LibUsbChunkedBulkTransferPrivate :=
  { d with done := 0, completed := 0, actualLength := 0, pending := 0 }

/-- The method `submit` (lines 126-146). -/
def submit (driver : Driver) (w : World) : Option World :=
  submitLoop driver w.d.transfers 0 { w with d := resetTracker w.d }

/-- The method `transfer` (lines 199-204). -/
def transfer (driver : Driver) (w : World) : Option World :=
  (submit driver w).bind (wait driver driver.waitDefault)

/-- The accessor `actualLength` (lines 206-209): the `int` read as `unsigned int`. -/
def actualLength (w : World) : Int := w.d.actualLength % 2 ^ 32

/-- The accessor `buffer` (lines 211-215): the start address of descriptor 0, and no
result when the vector is empty. -/
def buffer (w : World) : Option Int :=
  match w.d.transfers with
  | [] => none
  | t :: _ => some t.buffer

/-- The loop of `setBuffer` (lines 223-227). -/
def setBufferLoop : Int → List Transfer → List Transfer
  | _, [] => []
  | pbuffer, t :: rest => { t with buffer := pbuffer } :: setBufferLoop (pbuffer + t.length) rest

/-- The method `setBuffer` (lines 217-230). -/
def setBuffer (buffer : Int) (w : World) : World :=
  { w with d := { w.d with transfers := setBufferLoop buffer w.d.transfers } }

/-- The method `setDevice` (lines 232-240). -/
def setDevice (dev : Nat) (w : World) : World :=
  { w with d := { w.d with transfers := w.d.transfers.map fun t => { t with dev_handle := dev } } }

end LibUsbChunkedBulkTransfer

/-! ## Vocabulary of the statements -/

/-- The completions a list of dispatch calls delivers, in delivery order. -/
def delivered : List Dispatch → List Transfer
  | [] => []
  | ev :: rest => ev.completions ++ delivered rest

/-- The requests `libusb_submit_transfer` for the operations `0, ..., k - 1`, in order. -/
def submitCalls (k : Nat) : List DriverCall :=
  (List.range k).map DriverCall.submitTransfer

/-- The requests `libusb_cancel_transfer` for the operations `0, ..., k - 1`, in order. -/
def cancelCalls (k : Nat) : List DriverCall :=
  (List.range k).map DriverCall.cancelTransfer

/-- A driver call made while polling a round of `n` operations: an event dispatch, or a
cancellation request for one of the first `n` operations. -/
def PollingCall (n : Nat) (c : DriverCall) : Prop :=
  c = DriverCall.handleEvents ∨ ∃ i, i < n ∧ c = DriverCall.cancelTransfer i

/-- The value of `actualLength` after the callbacks of the completions `cs`, starting
from `a`. -/
def accumulated (a : Int) (cs : List Transfer) : Int :=
  cs.foldl (fun x t => toInt32 (x + t.actual_length)) a

/-- The tracker right after `submit` accepted `m` operations and before any completion. -/
def freshRound (d : LibUsbChunkedBulkTransferPrivate) (m : Nat) :
    LibUsbChunkedBulkTransferPrivate :=
  { LibUsbChunkedBulkTransfer.resetTracker d with pending := m }

/-- The cancellation requests one iteration of the polling loop makes after its dispatch
call: none when the call was interrupted or returned in time, the private `cancel`
otherwise. -/
def escalation (driver : Driver) (timeout : Nat) (ev : Dispatch)
    (d : LibUsbChunkedBulkTransferPrivate) : List DriverCall :=
  if ev.rc < 0 then
    if ev.rc = LIBUSB_ERROR_INTERRUPTED then [] else d.cancel driver
  else if timeout < ev.elapsedMs then d.cancel driver
  else []

/-! ## The coordinator as a transition system

The atomic actions on the tracker, for statements about every state the coordinator
passes through.  `outstanding` counts the operations the driver has accepted and not yet
answered with a callback: the driver runs one callback per accepted operation. -/

/-- The tracker with the bookkeeping of a round: the operations still owed a callback,
whether a round is open (`submit` has reset the tracker and `wait` has not yet reset
`pending`), and whether any `submit` has run. -/
structure Session where
  d : LibUsbChunkedBulkTransferPrivate
  outstanding : Nat
  roundOpen : Bool
  started : Bool
  deriving DecidableEq, Repr

/-- One atomic action of the coordinator or of the driver. -/
inductive Step : Session → Session → Prop
  /-- The head of `submit` (lines 129-132), entered when no operation is outstanding. -/
  | submitReset (s : Session) (h : s.outstanding = 0) :
      Step s ⟨LibUsbChunkedBulkTransfer.resetTracker s.d, 0, true, true⟩
  /-- The driver accepts a submission and `submit` counts it (lines 135, 143). -/
  | submitAccept (s : Session) (h : s.roundOpen = true) :
      Step s ⟨{ s.d with pending := s.d.pending + 1 }, s.outstanding + 1, s.roundOpen, s.started⟩
  /-- The driver runs the callback of an outstanding operation (lines 66-79). -/
  | complete (s : Session) (t : Transfer) (h : 0 < s.outstanding) :
      Step s ⟨s.d.callback t, s.outstanding - 1, s.roundOpen, s.started⟩
  /-- The polling loop of `wait` has seen `completed` and `wait` resets `pending`
  (lines 165, 168, 195). -/
  | waitReset (s : Session) (hp : s.d.pending ≠ 0) (hc : s.d.completed ≠ 0) :
      Step s ⟨{ s.d with pending := 0 }, s.outstanding, false, s.started⟩
  /-- The descriptors are rewritten by `setBuffer` or `setDevice` (lines 217-240). -/
  | rebind (s : Session) (ts : List Transfer) :
      Step s ⟨{ s.d with transfers := ts }, s.outstanding, s.roundOpen, s.started⟩

/-- The states reachable from the constructed coordinator `d0`. -/
inductive Reachable (d0 : LibUsbChunkedBulkTransferPrivate) : Session → Prop
  | init : Reachable d0 ⟨d0, 0, false, false⟩
  | step {s s2 : Session} : Reachable d0 s → Step s s2 → Reachable d0 s2

/-! ## The `int` range -/

section IntRange

theorem toInt32_of_range {x : Int} (h1 : INT_MIN ≤ x) (h2 : x ≤ INT_MAX) : toInt32 x = x := by
  unfold toInt32
  unfold INT_MIN at h1
  unfold INT_MAX at h2
  omega

theorem toInt32_toInt32_add (a b : Int) : toInt32 (toInt32 a + b) = toInt32 (a + b) := by
  unfold toInt32
  omega

theorem toInt32_size {chunk : Nat} (hint : chunk ≤ INT_MAX) (l : Nat) :
    toInt32 ((min chunk l : Nat) : Int) = ((min chunk l : Nat) : Int) := by
  apply toInt32_of_range
  · unfold INT_MIN
    omega
  · have : min chunk l ≤ INT_MAX := le_trans (Nat.min_le_left _ _) hint
    exact_mod_cast this

theorem accumulated_of_ne_nil : ∀ (cs : List Transfer) (a : Int), cs ≠ [] →
    accumulated a cs = toInt32 (a + (cs.map Transfer.actual_length).sum) := by
  intro cs
  induction cs with
  | nil => intro a h; exact absurd rfl h
  | cons c rest ih =>
    intro a _
    cases rest with
    | nil => simp [accumulated]
    | cons c2 rest2 =>
      have h := ih (toInt32 (a + c.actual_length)) (by simp)
      have hstep : accumulated a (c :: c2 :: rest2)
          = accumulated (toInt32 (a + c.actual_length)) (c2 :: rest2) := rfl
      rw [hstep, h, toInt32_toInt32_add]
      simp only [List.map_cons, List.sum_cons]
      congr 1
      ring

end IntRange

/-! ## The chunk plan -/

section Plan

open LibUsbChunkedBulkTransferPrivate

theorem length_fillTransfers (dev endpoint chunk timeout : Nat) :
    ∀ count pbuffer length,
      (fillTransfers dev endpoint chunk timeout count pbuffer length).length = count := by
  intro count
  induction count with
  | zero => intro _ _; rfl
  | succ k ih => intro p l; simp [fillTransfers, ih]

theorem getElem?_fillTransfers (dev endpoint chunk timeout : Nat) :
    ∀ count (pbuffer : Int) length i, i < count →
      (fillTransfers dev endpoint chunk timeout count pbuffer length)[i]? =
        some { dev_handle := dev, endpoint := endpoint,
               buffer := pbuffer + ((min (i * chunk) length : Nat) : Int),
               length := toInt32 ((min chunk (length - i * chunk) : Nat) : Int),
               timeout := timeout, status := TransferStatus.completed, actual_length := 0 } := by
  intro count
  induction count with
  | zero => intro _ _ i hi; omega
  | succ k ih =>
    intro p l i hi
    cases i with
    | zero => simp [fillTransfers]
    | succ j =>
      have hj : j < k := by omega
      have hmul : (j + 1) * chunk = j * chunk + chunk := Nat.succ_mul j chunk
      have hb : min chunk l + min (j * chunk) (l - min chunk l) = min (j * chunk + chunk) l := by
        omega
      have hl : min chunk (l - min chunk l - j * chunk) = min chunk (l - (j * chunk + chunk)) := by
        omega
      have hbz : p + ((min chunk l : Nat) : Int) + ((min (j * chunk) (l - min chunk l) : Nat) : Int)
          = p + ((min (j * chunk + chunk) l : Nat) : Int) := by
        rw [← hb]
        push_cast
        ring
      simp only [fillTransfers, List.getElem?_cons_succ, ih _ _ j hj, hmul, hl, hbz]

theorem sum_length_fillTransfers (dev endpoint chunk timeout : Nat) (hint : chunk ≤ INT_MAX) :
    ∀ count pbuffer length,
      ((fillTransfers dev endpoint chunk timeout count pbuffer length).map Transfer.length).sum
        = ((min (count * chunk) length : Nat) : Int) := by
  intro count
  induction count with
  | zero => intro _ _; simp [fillTransfers]
  | succ k ih =>
    intro p l
    have hmul : (k + 1) * chunk = k * chunk + chunk := Nat.succ_mul k chunk
    have hb : min chunk l + min (k * chunk) (l - min chunk l) = min (k * chunk + chunk) l := by
      omega
    simp only [fillTransfers, List.map_cons, List.sum_cons, ih, hmul, toInt32_size hint]
    rw [← hb]
    push_cast
    ring

theorem take_fillTransfers (dev endpoint chunk timeout : Nat) :
    ∀ count pbuffer length i, i ≤ count →
      (fillTransfers dev endpoint chunk timeout count pbuffer length).take i =
        fillTransfers dev endpoint chunk timeout i pbuffer length := by
  intro count
  induction count with
  | zero => intro _ _ i hi; have : i = 0 := by omega
            subst this; rfl
  | succ k ih =>
    intro p l i hi
    cases i with
    | zero => rfl
    | succ j => simp [fillTransfers, ih _ _ j (by omega)]

theorem sizeWrap_le (x : Nat) : sizeWrap x ≤ x := Nat.mod_le x (2 ^ 64)

theorem sizeWrap_of_lt {x : Nat} (h : x < 2 ^ 64) : sizeWrap x = x := Nat.mod_eq_of_lt h

theorem mul_lt_of_lt_count {length chunk i : Nat} (hc : 1 ≤ chunk)
    (hi : i < sizeWrap (length + chunk - 1) / chunk) : i * chunk < length := by
  have h1 : sizeWrap (length + chunk - 1) / chunk ≤ (length + chunk - 1) / chunk :=
    Nat.div_le_div_right (sizeWrap_le _)
  have h2 : i + 1 ≤ (length + chunk - 1) / chunk := by omega
  have h3 : (i + 1) * chunk ≤ length + chunk - 1 := (Nat.le_div_iff_mul_le (by omega)).1 h2
  have hmul : (i + 1) * chunk = i * chunk + chunk := Nat.succ_mul i chunk
  omega

theorem count_le_one_of_le_chunk {length chunk : Nat} (hc : 1 ≤ chunk) (hl : length ≤ chunk) :
    sizeWrap (length + chunk - 1) / chunk ≤ 1 := by
  have h1 : sizeWrap (length + chunk - 1) / chunk ≤ (length + chunk - 1) / chunk :=
    Nat.div_le_div_right (sizeWrap_le _)
  have h2 : (length + chunk - 1) / chunk < 2 := by
    apply Nat.div_lt_of_lt_mul
    omega
  omega

theorem length_le_count_mul (length : Nat) {chunk : Nat} (hc : 1 ≤ chunk) :
    length ≤ (length + chunk - 1) / chunk * chunk := by
  have hdm := Nat.div_add_mod (length + chunk - 1) chunk
  have hml := Nat.mod_lt (length + chunk - 1) (by omega : chunk > 0)
  rw [Nat.mul_comm] at hdm
  omega

theorem length_setBufferLoop : ∀ (ts : List Transfer) (p : Int),
    (LibUsbChunkedBulkTransfer.setBufferLoop p ts).length = ts.length := by
  intro ts
  induction ts with
  | nil => intro _; rfl
  | cons t rest ih => intro p; simp [LibUsbChunkedBulkTransfer.setBufferLoop, ih]

theorem getElem?_setBufferLoop : ∀ (ts : List Transfer) (p : Int) (i : Nat) (t : Transfer),
    ts[i]? = some t →
      (LibUsbChunkedBulkTransfer.setBufferLoop p ts)[i]? =
        some { t with buffer := p + ((ts.take i).map Transfer.length).sum } := by
  intro ts
  induction ts with
  | nil => intro p i t h; simp at h
  | cons a rest ih =>
    intro p i t h
    cases i with
    | zero =>
      simp only [List.getElem?_cons_zero, Option.some.injEq] at h
      subst h
      simp [LibUsbChunkedBulkTransfer.setBufferLoop]
    | succ j =>
      simp only [List.getElem?_cons_succ] at h
      simp only [LibUsbChunkedBulkTransfer.setBufferLoop, List.getElem?_cons_succ,
        ih (p + a.length) j t h, List.take_succ_cons, List.map_cons, List.sum_cons, add_assoc]

end Plan

/-! ## The completion tracker -/

section Tracker

open LibUsbChunkedBulkTransferPrivate

theorem callback_eq (d : LibUsbChunkedBulkTransferPrivate) (t : Transfer) :
    callback d t =
      { done := d.done + 1
        pending := d.pending
        completed := if d.pending ≤ d.done + 1 then 1 else d.completed
        actualLength := toInt32 (d.actualLength + t.actual_length)
        transfers := d.transfers } := by
  unfold callback
  by_cases h : d.pending ≤ d.done + 1 <;> simp [h]

theorem foldl_callback (cs : List Transfer) :
    ∀ d : LibUsbChunkedBulkTransferPrivate,
      cs.foldl callback d =
        { done := d.done + cs.length
          pending := d.pending
          completed := if 0 < cs.length ∧ d.pending ≤ d.done + cs.length then 1 else d.completed
          actualLength := accumulated d.actualLength cs
          transfers := d.transfers } := by
  induction cs with
  | nil => intro d; simp [accumulated]
  | cons c cs ih =>
    intro d
    rw [List.foldl_cons, ih, callback_eq]
    simp only [List.length_cons, Nat.cast_add, Nat.cast_one,
      LibUsbChunkedBulkTransferPrivate.mk.injEq, and_true, true_and]
    refine ⟨by ring, ?_, rfl⟩
    by_cases h1 : d.pending ≤ d.done + 1
    · have h2 : d.pending ≤ d.done + (↑cs.length + 1) := by omega
      have h3 : (0 : Nat) < cs.length + 1 := by omega
      simp [h1, h2]
    · by_cases h0 : cs.length = 0
      · simp [h1, h0]
      · have h3 : 0 < cs.length := Nat.pos_of_ne_zero h0
        have h4 : (d.pending ≤ d.done + 1 + ↑cs.length) ↔ (d.pending ≤ d.done + (↑cs.length + 1)) := by
          constructor <;> intro h <;> omega
        simp [h1, h3, h4]

theorem cancelLoop_eq (driver : Driver) (l : List Nat) :
    cancelLoop driver l = l.map DriverCall.cancelTransfer := by
  induction l with
  | nil => rfl
  | cons i rest ih => simp [cancelLoop, ih]

theorem cancel_eq (driver : Driver) (d : LibUsbChunkedBulkTransferPrivate) :
    d.cancel driver = cancelCalls d.pending.toNat := by
  simp [LibUsbChunkedBulkTransferPrivate.cancel, cancelLoop_eq, cancelCalls]

theorem pollingCall_of_mem_cancelCalls {n : Nat} {c : DriverCall} (h : c ∈ cancelCalls n) :
    PollingCall n c := by
  simp only [cancelCalls, List.mem_map, List.mem_range] at h
  obtain ⟨i, hi, rfl⟩ := h
  exact Or.inr ⟨i, hi, rfl⟩

theorem delivered_append (a b : List Dispatch) :
    delivered (a ++ b) = delivered a ++ delivered b := by
  induction a with
  | nil => rfl
  | cons ev rest ih => simp [delivered, ih]

end Tracker

/-! ## The polling loop -/

section Wait

open LibUsbChunkedBulkTransferPrivate LibUsbChunkedBulkTransfer

theorem waitLoop_done (driver : Driver) (timeout : Nat) (script : List Dispatch)
    (d : LibUsbChunkedBulkTransferPrivate) (calls : List DriverCall) (h : d.completed ≠ 0) :
    waitLoop driver timeout script d calls = some ⟨d, calls, script⟩ := by
  cases script <;> simp [waitLoop, h]

theorem waitLoop_nil (driver : Driver) (timeout : Nat)
    (d : LibUsbChunkedBulkTransferPrivate) (calls : List DriverCall) (h : d.completed = 0) :
    waitLoop driver timeout [] d calls = none := by
  simp [waitLoop, h]

theorem waitLoop_cons (driver : Driver) (timeout : Nat) (ev : Dispatch) (rest : List Dispatch)
    (d : LibUsbChunkedBulkTransferPrivate) (calls : List DriverCall) (h : d.completed = 0) :
    waitLoop driver timeout (ev :: rest) d calls =
      waitLoop driver timeout rest (ev.completions.foldl callback d)
        (calls ++ DriverCall.handleEvents ::
          escalation driver timeout ev (ev.completions.foldl callback d)) := by
  have h0 : ¬ ((0 : Int) ≠ 0) := by simp
  simp only [waitLoop, h, escalation, if_neg h0]
  by_cases h1 : ev.rc < 0
  · by_cases h2 : ev.rc = LIBUSB_ERROR_INTERRUPTED
    · simp only [if_pos h1, if_pos h2]
    · simp only [if_pos h1, if_neg h2, List.append_assoc, List.singleton_append]
  · by_cases h3 : timeout < ev.elapsedMs
    · simp only [if_neg h1, if_pos h3, List.append_assoc, List.singleton_append]
    · simp only [if_neg h1, if_neg h3]

theorem pollingCall_of_mem_escalation (driver : Driver) (timeout : Nat) (ev : Dispatch)
    (d : LibUsbChunkedBulkTransferPrivate) {c : DriverCall}
    (h : c ∈ escalation driver timeout ev d) : PollingCall d.pending.toNat c := by
  unfold escalation at h
  rw [cancel_eq] at h
  split_ifs at h
  · simp at h
  · exact pollingCall_of_mem_cancelCalls h
  · exact pollingCall_of_mem_cancelCalls h
  · simp at h

theorem waitLoop_spec (driver : Driver) (timeout : Nat) :
    ∀ (script : List Dispatch) (d : LibUsbChunkedBulkTransferPrivate) (calls : List DriverCall)
      (w : World), waitLoop driver timeout script d calls = some w →
      ∃ consumed extra, script = consumed ++ w.script ∧
        w.d = (delivered consumed).foldl callback d ∧
        w.calls = calls ++ extra ∧ (∀ c ∈ extra, PollingCall d.pending.toNat c) ∧
        w.d.completed ≠ 0 := by
  intro script
  induction script with
  | nil =>
    intro d calls w h
    by_cases hc : d.completed = 0
    · rw [waitLoop_nil _ _ _ _ hc] at h; cases h
    · rw [waitLoop_done _ _ _ _ _ hc] at h
      cases h
      exact ⟨[], [], by simp, by simp [delivered], by simp, by simp, hc⟩
  | cons ev rest ih =>
    intro d calls w h
    by_cases hc : d.completed = 0
    · rw [waitLoop_cons _ _ _ _ _ _ hc] at h
      obtain ⟨consumed, extra, h1, h2, h3, h4, h5⟩ := ih _ _ _ h
      refine ⟨ev :: consumed,
        DriverCall.handleEvents :: escalation driver timeout ev (ev.completions.foldl callback d)
          ++ extra, ?_, ?_, ?_, ?_, h5⟩
      · simp [h1]
      · simp [delivered, List.foldl_append, h2]
      · simp [h3]
      · intro c hc'
        have hp : (ev.completions.foldl callback d).pending = d.pending := by
          rw [foldl_callback]
        simp only [List.cons_append, List.mem_cons, List.mem_append] at hc'
        rcases hc' with rfl | hc' | hc'
        · exact Or.inl rfl
        · have := pollingCall_of_mem_escalation _ _ _ _ hc'
          rwa [hp] at this
        · have := h4 c hc'
          rwa [hp] at this
    · rw [waitLoop_done _ _ _ _ _ hc] at h
      cases h
      exact ⟨[], [], by simp, by simp [delivered], by simp, by simp, hc⟩

theorem waitLoop_isSome_iff (driver : Driver) (timeout : Nat) :
    ∀ (script : List Dispatch) (d : LibUsbChunkedBulkTransferPrivate) (calls : List DriverCall),
      (∃ w, waitLoop driver timeout script d calls = some w) ↔
        (d.completed ≠ 0 ∨
          (0 < (delivered script).length ∧ d.pending ≤ d.done + (delivered script).length)) := by
  intro script
  induction script with
  | nil =>
    intro d calls
    by_cases hc : d.completed = 0
    · simp [waitLoop_nil _ _ _ _ hc, hc, delivered]
    · simp [waitLoop_done _ _ _ _ _ hc, hc]
  | cons ev rest ih =>
    intro d calls
    by_cases hc : d.completed = 0
    · rw [waitLoop_cons _ _ _ _ _ _ hc, ih]
      simp only [foldl_callback, hc, delivered, List.length_append, Nat.cast_add]
      by_cases hz : 0 < ev.completions.length ∧ d.pending ≤ d.done + ev.completions.length
      · simp only [hz, and_self, if_true]
        have := hz.1
        have := hz.2
        constructor
        · intro _; right; constructor <;> omega
        · intro _; left; decide
      · simp only [hz, if_false]
        constructor
        · rintro (h | ⟨h1, h2⟩)
          · exact absurd rfl h
          · right; constructor <;> omega
        · rintro (h | ⟨h1, h2⟩)
          · exact absurd rfl h
          · right
            constructor
            · by_contra hr
              apply hz
              constructor <;> omega
            · omega
    · simp [waitLoop_done _ _ _ _ _ hc, hc]

end Wait

/-! ## `wait`, `cancel` and `submit` -/

section Methods

open LibUsbChunkedBulkTransferPrivate LibUsbChunkedBulkTransfer

theorem wait_idle (driver : Driver) (timeout : Nat) (w : World) (h : w.d.pending = 0) :
    wait driver timeout w = some w := by
  simp [wait, h]

theorem wait_pending_zero (driver : Driver) (timeout : Nat) (w w2 : World)
    (h : wait driver timeout w = some w2) : w2.d.pending = 0 := by
  unfold wait at h
  by_cases hp : w.d.pending = 0
  · rw [if_pos hp] at h
    cases h
    exact hp
  · rw [if_neg hp] at h
    cases hl : waitLoop driver timeout w.script w.d w.calls with
    | none => rw [hl] at h; cases h
    | some w1 => rw [hl] at h; cases h; rfl

theorem wait_busy (driver : Driver) (timeout : Nat) (w w2 : World) (hp : w.d.pending ≠ 0)
    (h : wait driver timeout w = some w2) :
    ∃ consumed extra, w.script = consumed ++ w2.script ∧
      w2.d = { (delivered consumed).foldl callback w.d with pending := 0 } ∧
      w2.calls = w.calls ++ extra ∧ (∀ c ∈ extra, PollingCall w.d.pending.toNat c) ∧
      ((delivered consumed).foldl callback w.d).completed ≠ 0 := by
  unfold wait at h
  rw [if_neg hp] at h
  cases hl : waitLoop driver timeout w.script w.d w.calls with
  | none => rw [hl] at h; cases h
  | some w1 =>
    rw [hl] at h
    cases h
    obtain ⟨consumed, extra, h1, h2, h3, h4, h5⟩ := waitLoop_spec _ _ _ _ _ _ hl
    exact ⟨consumed, extra, h1, by simp [h2], h3, h4, by rw [← h2]; exact h5⟩

theorem wait_isSome_iff (driver : Driver) (timeout : Nat) (w : World) :
    (∃ w2, wait driver timeout w = some w2) ↔
      (w.d.pending = 0 ∨ w.d.completed ≠ 0 ∨
        (0 < (delivered w.script).length ∧
          w.d.pending ≤ w.d.done + (delivered w.script).length)) := by
  by_cases hp : w.d.pending = 0
  · simp [wait, hp]
  · have key := waitLoop_isSome_iff driver timeout w.script w.d w.calls
    simp only [hp, false_or]
    rw [← key]
    unfold wait
    rw [if_neg hp]
    cases hl : waitLoop driver timeout w.script w.d w.calls with
    | none => simp
    | some w1 => simp

theorem submitLoop_accept (driver : Driver) :
    ∀ (ts : List Transfer) (i : Nat) (w : World),
      (∀ j, j < ts.length → driver.submitRc (i + j) = 0) →
      submitLoop driver ts i w =
        some { d := { w.d with pending := w.d.pending + ts.length }
               calls := w.calls ++ (List.range' i ts.length).map DriverCall.submitTransfer
               script := w.script } := by
  intro ts
  induction ts with
  | nil => intro i w _; simp [submitLoop]
  | cons t rest ih =>
    intro i w h
    have h0 : driver.submitRc i = 0 := by simpa using h 0 (by simp)
    have hrest : ∀ j, j < rest.length → driver.submitRc (i + 1 + j) = 0 := by
      intro j hj
      have := h (j + 1) (by simp; omega)
      rwa [show i + (j + 1) = i + 1 + j by omega] at this
    simp only [submitLoop, h0, ne_eq, not_true_eq_false, if_false]
    rw [ih _ _ hrest]
    simp only [List.range'_succ, List.map_cons, List.length_cons, Nat.cast_add, Nat.cast_one,
      List.append_assoc, List.singleton_append, Option.some.injEq, World.mk.injEq,
      LibUsbChunkedBulkTransferPrivate.mk.injEq, and_true, true_and]
    omega

theorem submitLoop_reject (driver : Driver) :
    ∀ (ts : List Transfer) (i : Nat) (w : World) (m : Nat), m < ts.length →
      (∀ j, j < m → driver.submitRc (i + j) = 0) → driver.submitRc (i + m) ≠ 0 →
      submitLoop driver ts i w =
        LibUsbChunkedBulkTransfer.cancel driver
          { d := { w.d with pending := w.d.pending + m }
            calls := w.calls ++ (List.range' i (m + 1)).map DriverCall.submitTransfer
            script := w.script } := by
  intro ts
  induction ts with
  | nil => intro i w m hm; simp at hm
  | cons t rest ih =>
    intro i w m hm hacc hrej
    cases m with
    | zero =>
      have hr : driver.submitRc i ≠ 0 := by simpa using hrej
      simp [submitLoop, hr]
    | succ k =>
      have h0 : driver.submitRc i = 0 := by simpa using hacc 0 (by omega)
      have hk : k < rest.length := by simpa using hm
      have hacc2 : ∀ j, j < k → driver.submitRc (i + 1 + j) = 0 := by
        intro j hj
        have := hacc (j + 1) (by omega)
        rwa [show i + (j + 1) = i + 1 + j by omega] at this
      have hrej2 : driver.submitRc (i + 1 + k) ≠ 0 := by
        rwa [show i + (k + 1) = i + 1 + k by omega] at hrej
      simp only [submitLoop, h0, ne_eq, not_true_eq_false, if_false]
      rw [ih _ _ k hk hacc2 hrej2]
      congr 1
      simp only [List.range'_succ, List.map_cons, Nat.cast_add, Nat.cast_one,
        List.append_assoc, List.singleton_append, World.mk.injEq,
        LibUsbChunkedBulkTransferPrivate.mk.injEq, and_true, true_and]
      omega

theorem cancel_pending_zero (driver : Driver) (w w2 : World)
    (h : LibUsbChunkedBulkTransfer.cancel driver w = some w2) : w2.d.pending = 0 :=
  wait_pending_zero _ _ _ _ h

end Methods

/-! ## Properties of a round -/

section Round

open LibUsbChunkedBulkTransferPrivate LibUsbChunkedBulkTransfer

theorem construct_zero_length (dev endpoint : Nat) (buffer : Int) (chunk timeout : Nat)
    (hc : 1 ≤ chunk) :
    (construct dev endpoint buffer 0 chunk timeout).transfers = [] := by
  have h : sizeWrap (0 + chunk - 1) / chunk = 0 := by
    apply Nat.div_eq_of_lt
    unfold sizeWrap
    have := Nat.mod_le (0 + chunk - 1) (2 ^ 64)
    omega
  unfold construct
  simp only [h, fillTransfers]

theorem submit_returns_fresh_or_idle (driver : Driver) (w w1 : World)
    (h : submit driver w = some w1) :
    w1.d.pending = 0 ∨
      (w1.d = freshRound w.d w.d.transfers.length ∧
        w1.calls = w.calls ++ submitCalls w.d.transfers.length ∧ w1.script = w.script) := by
  by_cases hall : ∀ j, j < w.d.transfers.length → driver.submitRc j = 0
  · right
    have hall2 : ∀ j, j < w.d.transfers.length → driver.submitRc (0 + j) = 0 := by
      simpa using hall
    unfold submit at h
    rw [submitLoop_accept driver _ 0 _ hall2] at h
    cases h
    simp [freshRound, resetTracker, submitCalls, List.range_eq_range']
  · left
    push_neg at hall
    have hex : ∃ j, j < w.d.transfers.length ∧ driver.submitRc j ≠ 0 := hall
    classical
    have hm := Nat.find_spec hex
    have hmin : ∀ j, j < Nat.find hex → driver.submitRc (0 + j) = 0 := by
      intro j hj
      have := Nat.find_min hex hj
      rw [Nat.zero_add]
      by_contra hne
      exact this ⟨lt_trans hj hm.1, hne⟩
    unfold submit at h
    rw [submitLoop_reject driver _ 0 _ (Nat.find hex) hm.1 hmin (by simpa using hm.2)] at h
    exact cancel_pending_zero _ _ _ h

/-- C8: when no operation is submitted (`pending = 0`), `wait` with any timeout returns
at once with the world unchanged: no driver call is added, no dispatch call is taken
from the driver, and the tracker and every descriptor keep their values.  For a
coordinator built with `length = 0` (and `chunk ≥ 1`), `submit` makes no driver call and
leaves `pending = 0`, and the `wait` that follows is that no-op. -/
theorem wait_noop_when_nothing_submitted (driver : Driver) (timeout : Nat) (w : World)
    (h : w.d.pending = 0)
    (dev endpoint : Nat) (buffer : Int) (chunk tmo : Nat) (script : List Dispatch)
    (hc : 1 ≤ chunk) :
    wait driver timeout w = some w ∧
      ∃ w1, submit driver (create dev endpoint buffer 0 chunk tmo script) = some w1 ∧
        w1.d.transfers = [] ∧ w1.d.pending = 0 ∧ w1.calls = [] ∧ w1.script = script ∧
        wait driver timeout w1 = some w1 := by
  refine ⟨wait_idle _ _ _ h, ?_⟩
  have hplan := construct_zero_length dev endpoint buffer chunk tmo hc
  refine ⟨⟨resetTracker (construct dev endpoint buffer 0 chunk tmo), [], script⟩, ?_, ?_, ?_,
    rfl, rfl, ?_⟩
  · simp [submit, create, hplan, submitLoop]
  · simpa [resetTracker] using hplan
  · simp [resetTracker]
  · apply wait_idle
    simp [resetTracker]

/-- Witness of C8: an idle default-constructed coordinator, and a zero-length plan. -/
theorem wait_noop_when_nothing_submitted_witness :
    wait ⟨fun _ => 0, fun _ => 0, 1000⟩ 5 (LibUsbChunkedBulkTransfer.default [⟨[], 0, 1⟩]) =
        some (LibUsbChunkedBulkTransfer.default [⟨[], 0, 1⟩]) ∧
      ∃ w1, submit ⟨fun _ => 0, fun _ => 0, 1000⟩ (create 7 129 4096 0 256 0 [⟨[], 0, 1⟩])
          = some w1 ∧
        w1.d.transfers = [] ∧ w1.d.pending = 0 ∧ w1.calls = [] ∧ w1.script = [⟨[], 0, 1⟩] ∧
        wait ⟨fun _ => 0, fun _ => 0, 1000⟩ 5 w1 = some w1 :=
  wait_noop_when_nothing_submitted ⟨fun _ => 0, fun _ => 0, 1000⟩ 5
    (LibUsbChunkedBulkTransfer.default [⟨[], 0, 1⟩]) (by decide) 7 129 4096 256 0 [⟨[], 0, 1⟩]
    (by decide)

/-- C6: from a freshly reset tracker with `pending = m ≥ 1`, after `j ≤ m` completion
callbacks of any status and any actual length, `done = j` and `completed` is set (to 1)
if and only if `j = m`; `m` is not tied to the number of descriptors. -/
theorem completed_iff_all_submitted_done (d0 : LibUsbChunkedBulkTransferPrivate) (m : Nat)
    (hm : 1 ≤ m) (cs : List Transfer) (hj : cs.length ≤ m) :
    (freshRound d0 m).done = 0 ∧ (freshRound d0 m).completed = 0 ∧
      (freshRound d0 m).pending = m ∧
      (cs.foldl callback (freshRound d0 m)).done = cs.length ∧
      ((cs.foldl callback (freshRound d0 m)).completed ≠ 0 ↔ cs.length = m) ∧
      ((cs.foldl callback (freshRound d0 m)).completed = 1 ↔ cs.length = m) := by
  rw [foldl_callback]
  simp only [freshRound, resetTracker, zero_add, Nat.cast_le, true_and]
  by_cases h : 0 < cs.length ∧ m ≤ cs.length
  · have : cs.length = m := by omega
    have hm0 : m ≠ 0 := by omega
    simp [h, this, hm0]
  · have : cs.length ≠ m := by omega
    simp [h, this]

/-- Witness of C6: three operations submitted out of a plan of four; two cancelled
completions do not set `completed`. -/
theorem completed_iff_all_submitted_done_witness :
    (freshRound (construct 7 129 4096 1000 256 0) 3).done = 0 ∧
      (freshRound (construct 7 129 4096 1000 256 0) 3).completed = 0 ∧
      (freshRound (construct 7 129 4096 1000 256 0) 3).pending = (3 : Nat) ∧
      (([⟨7, 129, 4096, 256, 0, TransferStatus.cancelled, 0⟩,
          ⟨7, 129, 4352, 256, 0, TransferStatus.error, 17⟩] : List Transfer).foldl callback
        (freshRound (construct 7 129 4096 1000 256 0) 3)).done =
          ([⟨7, 129, 4096, 256, 0, TransferStatus.cancelled, 0⟩,
            ⟨7, 129, 4352, 256, 0, TransferStatus.error, 17⟩] : List Transfer).length ∧
      ((([⟨7, 129, 4096, 256, 0, TransferStatus.cancelled, 0⟩,
          ⟨7, 129, 4352, 256, 0, TransferStatus.error, 17⟩] : List Transfer).foldl callback
        (freshRound (construct 7 129 4096 1000 256 0) 3)).completed ≠ 0 ↔
          ([⟨7, 129, 4096, 256, 0, TransferStatus.cancelled, 0⟩,
            ⟨7, 129, 4352, 256, 0, TransferStatus.error, 17⟩] : List Transfer).length = 3) ∧
      ((([⟨7, 129, 4096, 256, 0, TransferStatus.cancelled, 0⟩,
          ⟨7, 129, 4352, 256, 0, TransferStatus.error, 17⟩] : List Transfer).foldl callback
        (freshRound (construct 7 129 4096 1000 256 0) 3)).completed = 1 ↔
          ([⟨7, 129, 4096, 256, 0, TransferStatus.cancelled, 0⟩,
            ⟨7, 129, 4352, 256, 0, TransferStatus.error, 17⟩] : List Transfer).length = 3) :=
  completed_iff_all_submitted_done (construct 7 129 4096 1000 256 0) 3 (by decide)
    [⟨7, 129, 4096, 256, 0, TransferStatus.cancelled, 0⟩,
      ⟨7, 129, 4352, 256, 0, TransferStatus.error, 17⟩] (by decide)

/-- C4: let `submit` return with `pending = n > 0`.  Then `wait`, for any timeout and any
sequence of dispatch results and elapsed times, returns exactly when the driver's dispatch
calls deliver at least `n` completions; and whenever it returns, the dispatch calls it
consumed delivered at least `n` callbacks, `done ≥ n`, `completed = 1`, `pending = 0`, and
the only driver calls it made are dispatch calls and cancellation requests for the first
`n` operations. -/
theorem wait_returns_only_after_all_completions (driver : Driver) (w0 w1 : World)
    (hsub : submit driver w0 = some w1) (hn : 0 < w1.d.pending) (timeout : Nat) :
    ((∃ w2, wait driver timeout w1 = some w2) ↔
        w1.d.pending ≤ (delivered w1.script).length) ∧
      ∀ w2, wait driver timeout w1 = some w2 →
        w1.d.pending ≤ w2.d.done ∧ w2.d.completed = 1 ∧ w2.d.pending = 0 ∧
        ∃ consumed extra, w1.script = consumed ++ w2.script ∧
          w2.d.done = (delivered consumed).length ∧
          w1.d.pending ≤ (delivered consumed).length ∧
          w2.calls = w1.calls ++ extra ∧ ∀ c ∈ extra, PollingCall w1.d.pending.toNat c := by
  have hp : w1.d.pending ≠ 0 := by omega
  rcases submit_returns_fresh_or_idle driver w0 w1 hsub with h0 | ⟨hd, _, _⟩
  · exact absurd h0 hp
  have hdone : w1.d.done = 0 := by rw [hd]; rfl
  have hcomp : w1.d.completed = 0 := by rw [hd]; rfl
  constructor
  · rw [wait_isSome_iff]
    simp only [hp, hcomp, hdone, ne_eq, not_true_eq_false, false_or, zero_add]
    constructor
    · exact fun h => h.2
    · intro h
      refine ⟨?_, h⟩
      have : (0 : Int) < ((delivered w1.script).length : Int) := lt_of_lt_of_le hn h
      exact_mod_cast this
  · intro w2 hw
    obtain ⟨consumed, extra, h1, h2, h3, h4, h5⟩ := wait_busy driver timeout w1 w2 hp hw
    rw [foldl_callback] at h2 h5
    simp only [hdone, hcomp, zero_add] at h2 h5
    have hcond : 0 < (delivered consumed).length ∧
        w1.d.pending ≤ ((delivered consumed).length : Int) := by
      by_contra hne
      simp [hne] at h5
    rw [h2]
    refine ⟨hcond.2, ?_, rfl, consumed, extra, h1, rfl, hcond.2, h3, h4⟩
    exact if_pos hcond

/-- Witness of C4: two operations; the first dispatch call fails and delivers one
completion, the second is late and delivers the other. -/
theorem wait_returns_only_after_all_completions_witness :
    ((∃ w2, wait ⟨fun _ => 0, fun _ => 0, 1000⟩ 5
          ⟨freshRound (construct 7 129 4096 512 256 0) 2, submitCalls 2,
            [⟨[⟨7, 129, 4352, 256, 0, TransferStatus.completed, 256⟩], -1, 3⟩,
             ⟨[⟨7, 129, 4096, 256, 0, TransferStatus.cancelled, 0⟩], 0, 9⟩]⟩ = some w2) ↔
        (freshRound (construct 7 129 4096 512 256 0) 2).pending ≤
          (delivered [⟨[⟨7, 129, 4352, 256, 0, TransferStatus.completed, 256⟩], -1, 3⟩,
             ⟨[⟨7, 129, 4096, 256, 0, TransferStatus.cancelled, 0⟩], 0, 9⟩]).length) ∧
      ∀ w2, wait ⟨fun _ => 0, fun _ => 0, 1000⟩ 5
          ⟨freshRound (construct 7 129 4096 512 256 0) 2, submitCalls 2,
            [⟨[⟨7, 129, 4352, 256, 0, TransferStatus.completed, 256⟩], -1, 3⟩,
             ⟨[⟨7, 129, 4096, 256, 0, TransferStatus.cancelled, 0⟩], 0, 9⟩]⟩ = some w2 →
        (freshRound (construct 7 129 4096 512 256 0) 2).pending ≤ w2.d.done ∧
        w2.d.completed = 1 ∧ w2.d.pending = 0 ∧
        ∃ consumed extra,
          [⟨[⟨7, 129, 4352, 256, 0, TransferStatus.completed, 256⟩], -1, 3⟩,
             ⟨[⟨7, 129, 4096, 256, 0, TransferStatus.cancelled, 0⟩], 0, 9⟩]
            = consumed ++ w2.script ∧
          w2.d.done = (delivered consumed).length ∧
          (freshRound (construct 7 129 4096 512 256 0) 2).pending ≤
            (delivered consumed).length ∧
          w2.calls = submitCalls 2 ++ extra ∧
          ∀ c ∈ extra,
            PollingCall (freshRound (construct 7 129 4096 512 256 0) 2).pending.toNat c :=
  wait_returns_only_after_all_completions ⟨fun _ => 0, fun _ => 0, 1000⟩
    (create 7 129 4096 512 256 0
      [⟨[⟨7, 129, 4352, 256, 0, TransferStatus.completed, 256⟩], -1, 3⟩,
       ⟨[⟨7, 129, 4096, 256, 0, TransferStatus.cancelled, 0⟩], 0, 9⟩])
    ⟨freshRound (construct 7 129 4096 512 256 0) 2, submitCalls 2,
      [⟨[⟨7, 129, 4352, 256, 0, TransferStatus.completed, 256⟩], -1, 3⟩,
       ⟨[⟨7, 129, 4096, 256, 0, TransferStatus.cancelled, 0⟩], 0, 9⟩]⟩
    (by decide) (by decide) 5

theorem submit_all_accepted (driver : Driver) (w : World)
    (hacc : ∀ i, i < w.d.transfers.length → driver.submitRc i = 0) :
    submit driver w =
      some ⟨freshRound w.d w.d.transfers.length, w.calls ++ submitCalls w.d.transfers.length,
        w.script⟩ := by
  have hacc2 : ∀ j, j < w.d.transfers.length → driver.submitRc (0 + j) = 0 := by
    simpa using hacc
  unfold submit
  rw [submitLoop_accept driver _ 0 _ hacc2]
  simp [freshRound, resetTracker, submitCalls, List.range_eq_range']

/-- C2, as stated, fails in two ways.  For a plan of no operation `submit` clears
`completed`, no callback runs, and `completed` stays 0.  For a plan of three operations
that each report an actual length of 1000000000, the `int` field `actualLength` ends at
-1294967296, not at the sum 3000000000. -/
theorem completion_order_counterexample :
    ((create 7 129 4096 0 256 0 []).d.transfers.length = 0 ∧
      ∃ w1, submit ⟨fun _ => 0, fun _ => 0, 1000⟩ (create 7 129 4096 0 256 0 []) = some w1 ∧
        (([] : List Transfer).foldl callback w1.d).done = 0 ∧
        (([] : List Transfer).foldl callback w1.d).completed ≠ 1) ∧
    ((create 7 129 4096 3000000000 1000000000 0 []).d.transfers.length = 3 ∧
      ∃ w1, submit ⟨fun _ => 0, fun _ => 0, 1000⟩
          (create 7 129 4096 3000000000 1000000000 0 []) = some w1 ∧
        (([⟨7, 129, 4096, 1000000000, 0, TransferStatus.completed, 1000000000⟩,
          ⟨7, 129, 1000004096, 1000000000, 0, TransferStatus.completed, 1000000000⟩,
          ⟨7, 129, 2000004096, 1000000000, 0, TransferStatus.completed, 1000000000⟩] : List Transfer).foldl callback w1.d).done = 3 ∧
        (([⟨7, 129, 4096, 1000000000, 0, TransferStatus.completed, 1000000000⟩,
          ⟨7, 129, 1000004096, 1000000000, 0, TransferStatus.completed, 1000000000⟩,
          ⟨7, 129, 2000004096, 1000000000, 0, TransferStatus.completed, 1000000000⟩] : List Transfer).foldl callback w1.d).completed = 1 ∧
        (([⟨7, 129, 4096, 1000000000, 0, TransferStatus.completed, 1000000000⟩,
          ⟨7, 129, 1000004096, 1000000000, 0, TransferStatus.completed, 1000000000⟩,
          ⟨7, 129, 2000004096, 1000000000, 0, TransferStatus.completed, 1000000000⟩] : List Transfer).foldl callback w1.d).actualLength = -1294967296 ∧
        (([⟨7, 129, 4096, 1000000000, 0, TransferStatus.completed, 1000000000⟩,
          ⟨7, 129, 1000004096, 1000000000, 0, TransferStatus.completed, 1000000000⟩,
          ⟨7, 129, 2000004096, 1000000000, 0, TransferStatus.completed, 1000000000⟩] : List Transfer).map Transfer.actual_length).sum = 3000000000) := by
  refine ⟨⟨by decide, ⟨freshRound (construct 7 129 4096 0 256 0) 0, [], []⟩, by decide,
    by decide, by decide⟩,
    by decide, ⟨freshRound (construct 7 129 4096 3000000000 1000000000 0) 3, submitCalls 3, []⟩,
    by decide, by decide, by decide, by decide, by decide⟩

/-- C2 (amended): after a fully successful `submit` of `n ≥ 1` operations
(`pending = n`, `done = 0`, `completed = 0`), running the callback once per operation,
in any order of the `n` completions and for any reported statuses and actual lengths,
ends in the same tracker state, with `done = n` and `completed = 1`; and when the sum of
the reported actual lengths lies in the range of `int`, `actualLength` is that sum. -/
theorem completion_order_irrelevant (driver : Driver) (w0 : World)
    (hacc : ∀ i, i < w0.d.transfers.length → driver.submitRc i = 0)
    (hn : 1 ≤ w0.d.transfers.length) (cs cs2 : List Transfer)
    (hlen : cs.length = w0.d.transfers.length) (hperm : cs2.Perm cs) :
    ∃ w1, submit driver w0 = some w1 ∧
      w1.d.pending = w0.d.transfers.length ∧ w1.d.done = 0 ∧ w1.d.completed = 0 ∧
      cs2.foldl callback w1.d = cs.foldl callback w1.d ∧
      (cs2.foldl callback w1.d).done = w0.d.transfers.length ∧
      (cs2.foldl callback w1.d).completed = 1 ∧
      (INT_MIN ≤ (cs.map Transfer.actual_length).sum →
        (cs.map Transfer.actual_length).sum ≤ INT_MAX →
        (cs2.foldl callback w1.d).actualLength = (cs.map Transfer.actual_length).sum) := by
  have hl2 : cs2.length = cs.length := hperm.length_eq
  have hs2 : (cs2.map Transfer.actual_length).sum = (cs.map Transfer.actual_length).sum :=
    (hperm.map _).sum_eq
  have hne : cs ≠ [] := by
    intro h
    rw [h] at hlen
    simp at hlen
    omega
  have hne2 : cs2 ≠ [] := by
    intro h
    rw [h] at hl2
    exact hne (List.length_eq_zero.1 hl2.symm)
  have hacc0 : ∀ l : List Transfer, l ≠ [] →
      accumulated (freshRound w0.d w0.d.transfers.length).actualLength l
        = toInt32 ((l.map Transfer.actual_length).sum) := by
    intro l hl
    rw [accumulated_of_ne_nil l _ hl]
    simp [freshRound, resetTracker]
  have hcond : 0 < w0.d.transfers.length ∧
      (freshRound w0.d w0.d.transfers.length).pending ≤
        (freshRound w0.d w0.d.transfers.length).done + (w0.d.transfers.length : Int) := by
    refine ⟨hn, ?_⟩
    simp [freshRound, resetTracker]
  refine ⟨_, submit_all_accepted driver w0 hacc, rfl, rfl, rfl, ?_, ?_, ?_, ?_⟩
  · rw [foldl_callback, foldl_callback, hl2, hacc0 cs2 hne2, hacc0 cs hne, hs2]
  · rw [foldl_callback, hl2, hlen]
    simp [freshRound, resetTracker]
  · rw [foldl_callback, hl2, hlen]
    exact if_pos hcond
  · intro h1 h2
    rw [foldl_callback]
    show accumulated (freshRound w0.d w0.d.transfers.length).actualLength cs2 = _
    rw [hacc0 cs2 hne2, hs2]
    exact toInt32_of_range h1 h2

/-- Witness of C2: four chunks of a 1000-byte buffer, completions delivered in the order
4th, 1st, 3rd, 2nd with actual lengths 232, 256, 256, 256. -/
theorem completion_order_irrelevant_witness :
    ∃ w1, submit ⟨fun _ => 0, fun _ => 0, 1000⟩ (create 7 129 4096 1000 256 0 []) = some w1 ∧
      w1.d.pending = (create 7 129 4096 1000 256 0 []).d.transfers.length ∧
      w1.d.done = 0 ∧ w1.d.completed = 0 ∧
      ([⟨7, 129, 4864, 232, 0, TransferStatus.completed, 232⟩,
        ⟨7, 129, 4096, 256, 0, TransferStatus.completed, 256⟩,
        ⟨7, 129, 4608, 256, 0, TransferStatus.completed, 256⟩,
        ⟨7, 129, 4352, 256, 0, TransferStatus.completed, 256⟩] : List Transfer).foldl
          callback w1.d =
        ([⟨7, 129, 4096, 256, 0, TransferStatus.completed, 256⟩,
          ⟨7, 129, 4352, 256, 0, TransferStatus.completed, 256⟩,
          ⟨7, 129, 4608, 256, 0, TransferStatus.completed, 256⟩,
          ⟨7, 129, 4864, 232, 0, TransferStatus.completed, 232⟩] : List Transfer).foldl
            callback w1.d ∧
      (([⟨7, 129, 4864, 232, 0, TransferStatus.completed, 232⟩,
        ⟨7, 129, 4096, 256, 0, TransferStatus.completed, 256⟩,
        ⟨7, 129, 4608, 256, 0, TransferStatus.completed, 256⟩,
        ⟨7, 129, 4352, 256, 0, TransferStatus.completed, 256⟩] : List Transfer).foldl
          callback w1.d).done = (create 7 129 4096 1000 256 0 []).d.transfers.length ∧
      (([⟨7, 129, 4864, 232, 0, TransferStatus.completed, 232⟩,
        ⟨7, 129, 4096, 256, 0, TransferStatus.completed, 256⟩,
        ⟨7, 129, 4608, 256, 0, TransferStatus.completed, 256⟩,
        ⟨7, 129, 4352, 256, 0, TransferStatus.completed, 256⟩] : List Transfer).foldl
          callback w1.d).completed = 1 ∧
      (INT_MIN ≤ (([⟨7, 129, 4096, 256, 0, TransferStatus.completed, 256⟩,
          ⟨7, 129, 4352, 256, 0, TransferStatus.completed, 256⟩,
          ⟨7, 129, 4608, 256, 0, TransferStatus.completed, 256⟩,
          ⟨7, 129, 4864, 232, 0, TransferStatus.completed, 232⟩] : List Transfer).map
            Transfer.actual_length).sum →
        (([⟨7, 129, 4096, 256, 0, TransferStatus.completed, 256⟩,
          ⟨7, 129, 4352, 256, 0, TransferStatus.completed, 256⟩,
          ⟨7, 129, 4608, 256, 0, TransferStatus.completed, 256⟩,
          ⟨7, 129, 4864, 232, 0, TransferStatus.completed, 232⟩] : List Transfer).map
            Transfer.actual_length).sum ≤ INT_MAX →
        (([⟨7, 129, 4864, 232, 0, TransferStatus.completed, 232⟩,
        ⟨7, 129, 4096, 256, 0, TransferStatus.completed, 256⟩,
        ⟨7, 129, 4608, 256, 0, TransferStatus.completed, 256⟩,
        ⟨7, 129, 4352, 256, 0, TransferStatus.completed, 256⟩] : List Transfer).foldl
          callback w1.d).actualLength =
        (([⟨7, 129, 4096, 256, 0, TransferStatus.completed, 256⟩,
          ⟨7, 129, 4352, 256, 0, TransferStatus.completed, 256⟩,
          ⟨7, 129, 4608, 256, 0, TransferStatus.completed, 256⟩,
          ⟨7, 129, 4864, 232, 0, TransferStatus.completed, 232⟩] : List Transfer).map
            Transfer.actual_length).sum) :=
  completion_order_irrelevant ⟨fun _ => 0, fun _ => 0, 1000⟩ (create 7 129 4096 1000 256 0 [])
    (fun _ _ => rfl) (by decide)
    [⟨7, 129, 4096, 256, 0, TransferStatus.completed, 256⟩,
          ⟨7, 129, 4352, 256, 0, TransferStatus.completed, 256⟩,
          ⟨7, 129, 4608, 256, 0, TransferStatus.completed, 256⟩,
          ⟨7, 129, 4864, 232, 0, TransferStatus.completed, 232⟩]
    [⟨7, 129, 4864, 232, 0, TransferStatus.completed, 232⟩,
        ⟨7, 129, 4096, 256, 0, TransferStatus.completed, 256⟩,
        ⟨7, 129, 4608, 256, 0, TransferStatus.completed, 256⟩,
        ⟨7, 129, 4352, 256, 0, TransferStatus.completed, 256⟩]
    (by decide) (by decide)

/-- The run of C2's witness in numbers: `done = 4`, `completed = 1`, `actualLength = 1000`. -/
theorem completion_order_example :
    (([⟨7, 129, 4864, 232, 0, TransferStatus.completed, 232⟩,
        ⟨7, 129, 4096, 256, 0, TransferStatus.completed, 256⟩,
        ⟨7, 129, 4608, 256, 0, TransferStatus.completed, 256⟩,
        ⟨7, 129, 4352, 256, 0, TransferStatus.completed, 256⟩] : List Transfer).foldl callback
        (freshRound (construct 7 129 4096 1000 256 0) 4)).done = 4 ∧
      (([⟨7, 129, 4864, 232, 0, TransferStatus.completed, 232⟩,
        ⟨7, 129, 4096, 256, 0, TransferStatus.completed, 256⟩,
        ⟨7, 129, 4608, 256, 0, TransferStatus.completed, 256⟩,
        ⟨7, 129, 4352, 256, 0, TransferStatus.completed, 256⟩] : List Transfer).foldl callback
        (freshRound (construct 7 129 4096 1000 256 0) 4)).completed = 1 ∧
      (([⟨7, 129, 4864, 232, 0, TransferStatus.completed, 232⟩,
        ⟨7, 129, 4096, 256, 0, TransferStatus.completed, 256⟩,
        ⟨7, 129, 4608, 256, 0, TransferStatus.completed, 256⟩,
        ⟨7, 129, 4352, 256, 0, TransferStatus.completed, 256⟩] : List Transfer).foldl callback
        (freshRound (construct 7 129 4096 1000 256 0) 4)).actualLength = 1000 := by
  decide

theorem submit_rejected_at (driver : Driver) (w : World) (k : Nat) (hk : 1 ≤ k)
    (hkn : k ≤ w.d.transfers.length) (hacc : ∀ i, i + 1 < k → driver.submitRc i = 0)
    (hrej : driver.submitRc (k - 1) ≠ 0) :
    submit driver w =
      wait driver driver.waitDefault
        ⟨freshRound w.d (k - 1), w.calls ++ submitCalls k ++ cancelCalls (k - 1), w.script⟩ := by
  have hacc2 : ∀ j, j < k - 1 → driver.submitRc (0 + j) = 0 := by
    intro j hj
    rw [Nat.zero_add]
    exact hacc j (by omega)
  have hrej2 : driver.submitRc (0 + (k - 1)) ≠ 0 := by rwa [Nat.zero_add]
  unfold submit
  rw [submitLoop_reject driver _ 0 _ (k - 1) (by omega) hacc2 hrej2]
  unfold LibUsbChunkedBulkTransfer.cancel
  rw [cancel_eq]
  have hk1 : k - 1 + 1 = k := by omega
  simp [freshRound, resetTracker, submitCalls, List.range_eq_range', hk1]

/-- C3, as stated, fails at `k = 2` on a plan of two operations: the second submission is
rejected, the driver then delivers the completion of the cancelled first operation, and
when `submit` has returned `pending` is 0, not `k - 1 = 1`. -/
theorem submit_failure_counterexample :
    (create 7 129 4096 512 256 0
        [⟨[⟨7, 129, 4096, 256, 0, TransferStatus.cancelled, 0⟩], 0, 1⟩]).d.transfers.length = 2 ∧
      ∃ w2, submit ⟨fun i => if i = 1 then -6 else 0, fun _ => 0, 1000⟩
          (create 7 129 4096 512 256 0
            [⟨[⟨7, 129, 4096, 256, 0, TransferStatus.cancelled, 0⟩], 0, 1⟩]) = some w2 ∧
        w2.d.pending = 0 ∧ w2.d.pending ≠ ((2 - 1 : Nat) : Int) ∧
        w2.calls = [DriverCall.submitTransfer 0, DriverCall.submitTransfer 1,
          DriverCall.cancelTransfer 0, DriverCall.handleEvents] := by
  refine ⟨by decide, ⟨{ freshRound (construct 7 129 4096 512 256 0) 0 with
      done := 1, completed := 1 },
    [DriverCall.submitTransfer 0, DriverCall.submitTransfer 1,
      DriverCall.cancelTransfer 0, DriverCall.handleEvents], []⟩, by decide, by decide,
    by decide, by decide⟩

/-- C3 (amended): if the driver accepts the first `k - 1` submissions and rejects the
`k`-th, `submit` hands the operations `0, ..., k - 1` to the driver and none after the
`k`-th, requests cancellation of exactly the `k - 1` accepted operations, and at that
point `pending = k - 1` with `done = 0`; it then drains through `wait()`.  It returns
exactly when the driver delivers at least `k - 1` completions, and once it has returned
`pending = 0` (which is `k - 1` only for `k = 1`), `done ≥ k - 1`, and every driver call
made while draining is a dispatch call or a cancellation request for an accepted
operation. -/
theorem submit_failure_cancels_accepted (driver : Driver) (w : World) (k : Nat) (hk : 1 ≤ k)
    (hkn : k ≤ w.d.transfers.length) (hacc : ∀ i, i + 1 < k → driver.submitRc i = 0)
    (hrej : driver.submitRc (k - 1) ≠ 0) :
    submit driver w =
        wait driver driver.waitDefault
          ⟨freshRound w.d (k - 1), w.calls ++ submitCalls k ++ cancelCalls (k - 1),
            w.script⟩ ∧
      (freshRound w.d (k - 1)).pending = ((k - 1 : Nat) : Int) ∧
      (freshRound w.d (k - 1)).done = 0 ∧
      ((∃ w2, submit driver w = some w2) ↔ k - 1 ≤ (delivered w.script).length) ∧
      ∀ w2, submit driver w = some w2 →
        w2.d.pending = 0 ∧ ((k - 1 : Nat) : Int) ≤ w2.d.done ∧
        ∃ extra, w2.calls = w.calls ++ submitCalls k ++ cancelCalls (k - 1) ++ extra ∧
          ∀ c ∈ extra, PollingCall (k - 1) c := by
  have heq := submit_rejected_at driver w k hk hkn hacc hrej
  refine ⟨heq, rfl, rfl, ?_, ?_⟩
  · rw [heq, wait_isSome_iff]
    simp only [freshRound, resetTracker, ne_eq, not_true_eq_false, false_or, zero_add,
      Nat.cast_le, Nat.cast_eq_zero]
    constructor
    · rintro (h | ⟨_, h⟩) <;> omega
    · intro h
      by_cases h0 : k - 1 = 0
      · exact Or.inl h0
      · exact Or.inr ⟨by omega, h⟩
  · intro w2 hw2
    rw [heq] at hw2
    refine ⟨wait_pending_zero _ _ _ _ hw2, ?_⟩
    by_cases h0 : k - 1 = 0
    · have hidle := wait_idle driver driver.waitDefault
        ⟨freshRound w.d (k - 1), w.calls ++ submitCalls k ++ cancelCalls (k - 1), w.script⟩
        (by simp [freshRound, h0])
      rw [hidle] at hw2
      cases hw2
      refine ⟨by simp [freshRound, resetTracker, h0], [], by simp, by simp⟩
    · obtain ⟨consumed, extra, _, h2, h3, h4, h5⟩ :=
        wait_busy driver driver.waitDefault _ w2 (by simpa [freshRound] using h0) hw2
      rw [foldl_callback] at h2 h5
      dsimp only at h2 h5
      have hcond : 0 < (delivered consumed).length ∧
          (freshRound w.d (k - 1)).pending ≤
            (freshRound w.d (k - 1)).done + ((delivered consumed).length : Int) := by
        by_contra hne
        rw [if_neg hne] at h5
        exact h5 rfl
      refine ⟨?_, extra, h3, ?_⟩
      · rw [h2]
        simpa [freshRound, resetTracker] using hcond.2
      · simpa [freshRound] using h4

/-- Witness of C3 (amended): the same rejected second submission. -/
theorem submit_failure_cancels_accepted_witness :
    submit ⟨fun i => if i = 1 then -6 else 0, fun _ => 0, 1000⟩
          (create 7 129 4096 512 256 0
            [⟨[⟨7, 129, 4096, 256, 0, TransferStatus.cancelled, 0⟩], 0, 1⟩]) =
        wait ⟨fun i => if i = 1 then -6 else 0, fun _ => 0, 1000⟩ 1000
          ⟨freshRound (construct 7 129 4096 512 256 0) (2 - 1),
            [] ++ submitCalls 2 ++ cancelCalls (2 - 1),
            [⟨[⟨7, 129, 4096, 256, 0, TransferStatus.cancelled, 0⟩], 0, 1⟩]⟩ ∧
      (freshRound (construct 7 129 4096 512 256 0) (2 - 1)).pending = ((2 - 1 : Nat) : Int) ∧
      (freshRound (construct 7 129 4096 512 256 0) (2 - 1)).done = 0 ∧
      ((∃ w2, submit ⟨fun i => if i = 1 then -6 else 0, fun _ => 0, 1000⟩
          (create 7 129 4096 512 256 0
            [⟨[⟨7, 129, 4096, 256, 0, TransferStatus.cancelled, 0⟩], 0, 1⟩]) = some w2) ↔
        2 - 1 ≤ (delivered
          [⟨[⟨7, 129, 4096, 256, 0, TransferStatus.cancelled, 0⟩], 0, 1⟩]).length) ∧
      ∀ w2, submit ⟨fun i => if i = 1 then -6 else 0, fun _ => 0, 1000⟩
          (create 7 129 4096 512 256 0
            [⟨[⟨7, 129, 4096, 256, 0, TransferStatus.cancelled, 0⟩], 0, 1⟩]) = some w2 →
        w2.d.pending = 0 ∧ ((2 - 1 : Nat) : Int) ≤ w2.d.done ∧
        ∃ extra, w2.calls = [] ++ submitCalls 2 ++ cancelCalls (2 - 1) ++ extra ∧
          ∀ c ∈ extra, PollingCall (2 - 1) c :=
  submit_failure_cancels_accepted ⟨fun i => if i = 1 then -6 else 0, fun _ => 0, 1000⟩
    (create 7 129 4096 512 256 0
      [⟨[⟨7, 129, 4096, 256, 0, TransferStatus.cancelled, 0⟩], 0, 1⟩])
    2 (by decide) (by decide)
    (by
      intro i hi
      have h : i = 0 := by omega
      subst h
      decide)
    (by decide)

/-- C7, as stated, fails for `pending = 0`: after `submit` on an empty plan `completed`
is 0, `cancel` makes no request, its `wait` is a no-op, no callback is due, and `cancel`
ends with `completed = 0`. -/
theorem cancel_drain_counterexample :
    ∃ w1 w2, submit ⟨fun _ => 0, fun _ => 0, 1000⟩ (create 7 129 4096 0 256 0 []) = some w1 ∧
      w1.d.pending = 0 ∧ w1.d.done = 0 ∧ w1.d.actualLength = 0 ∧
      (delivered w1.script).length = 0 ∧
      LibUsbChunkedBulkTransfer.cancel ⟨fun _ => 0, fun _ => 0, 1000⟩ w1 = some w2 ∧
      w2.calls = [] ∧ w2.d.completed = 0 ∧ w2.d.completed ≠ 1 := by
  refine ⟨⟨freshRound (construct 7 129 4096 0 256 0) 0, [], []⟩,
    ⟨freshRound (construct 7 129 4096 0 256 0) 0, [], []⟩, by decide, by decide, by decide,
    by decide, by decide, by decide, by decide, by decide, by decide⟩

/-- C7 (amended): in every state, `cancel` is the cancellation requests for the
operations `0, ..., pending - 1` in plan order, whatever the driver answers, followed by
`wait()`.  In a round with `pending = n ≥ 1` and no completion seen yet, every later
driver call is a dispatch call or a repeated request for one of these operations, all of
them descriptors of the plan; and when the driver delivers `n` callbacks of actual
length 0 (of status cancelled or any other), `cancel` returns with `completed = 1`,
`actualLength = 0`, `done = n` and `pending = 0`, and a following `wait` is a no-op. -/
theorem cancel_drains_round (driver : Driver) (w : World) (n : Nat) (hn : 1 ≤ n)
    (hplan : n ≤ w.d.transfers.length)
    (hdone : w.d.done = 0) (hcomp : w.d.completed = 0) (hact : w.d.actualLength = 0)
    (hpend : w.d.pending = n)
    (hcount : (delivered w.script).length = n)
    (hzero : ∀ t ∈ delivered w.script, t.actual_length = 0) :
    (∀ v : World, LibUsbChunkedBulkTransfer.cancel driver v =
        wait driver driver.waitDefault
          ⟨v.d, v.calls ++ cancelCalls v.d.pending.toNat, v.script⟩) ∧
    ∃ w2, LibUsbChunkedBulkTransfer.cancel driver w = some w2 ∧
      w2.d.completed = 1 ∧ w2.d.actualLength = 0 ∧ w2.d.pending = 0 ∧ w2.d.done = n ∧
      w2.d.transfers = w.d.transfers ∧
      (∃ extra, w2.calls = w.calls ++ cancelCalls n ++ extra ∧ (∀ c ∈ extra, PollingCall n c) ∧
        ∀ i, DriverCall.cancelTransfer i ∈ cancelCalls n ++ extra → i < w.d.transfers.length) ∧
      ∀ timeout, wait driver timeout w2 = some w2 := by
  refine ⟨fun v => by unfold LibUsbChunkedBulkTransfer.cancel; rw [cancel_eq], ?_⟩
  have hp : w.d.pending ≠ 0 := by rw [hpend]; exact_mod_cast (by omega : n ≠ 0)
  have hcan : LibUsbChunkedBulkTransfer.cancel driver w =
      wait driver driver.waitDefault ⟨w.d, w.calls ++ cancelCalls n, w.script⟩ := by
    unfold LibUsbChunkedBulkTransfer.cancel
    rw [cancel_eq, hpend]
    simp
  have hex : ∃ w2, wait driver driver.waitDefault ⟨w.d, w.calls ++ cancelCalls n, w.script⟩
      = some w2 := by
    rw [wait_isSome_iff]
    right; right
    dsimp only
    rw [hcount, hpend, hdone]
    exact ⟨hn, by simp⟩
  obtain ⟨w2, hw2⟩ := hex
  obtain ⟨consumed, extra, h1, h2, h3, h4, h5⟩ :=
    wait_busy driver driver.waitDefault ⟨w.d, w.calls ++ cancelCalls n, w.script⟩ w2 hp hw2
  rw [foldl_callback] at h2 h5
  dsimp only at h1 h2 h3 h4 h5
  have hcond : 0 < (delivered consumed).length ∧
      w.d.pending ≤ w.d.done + ((delivered consumed).length : Int) := by
    by_contra hne
    rw [if_neg hne] at h5
    exact h5 hcomp
  have hle : (delivered consumed).length ≤ n := by
    rw [← hcount, h1, delivered_append, List.length_append]
    omega
  have hlen : (delivered consumed).length = n := by
    have := hcond.2
    rw [hpend, hdone] at this
    have h' : (n : Int) ≤ ((delivered consumed).length : Int) := by simpa using this
    have : n ≤ (delivered consumed).length := by exact_mod_cast h'
    omega
  have hsum : ((delivered consumed).map Transfer.actual_length).sum = 0 := by
    apply List.sum_eq_zero
    intro x hx
    obtain ⟨t, ht, rfl⟩ := List.mem_map.1 hx
    apply hzero
    rw [h1, delivered_append]
    exact List.mem_append_left _ ht
  have h4n : ∀ c ∈ extra, PollingCall n c := by
    rw [hpend] at h4
    simpa using h4
  refine ⟨w2, by rw [hcan]; exact hw2, ?_, ?_, ?_, ?_, ?_, ⟨extra, h3, h4n, ?_⟩, ?_⟩
  · rw [h2]; exact if_pos hcond
  · rw [h2]
    show accumulated w.d.actualLength (delivered consumed) = 0
    rw [accumulated_of_ne_nil _ _ (List.ne_nil_of_length_pos hcond.1), hact, hsum]
    decide
  · rw [h2]
  · rw [h2]; simp [hdone, hlen]
  · rw [h2]
  · intro i hi
    have hin : i < n := by
      rcases List.mem_append.1 hi with h | h
      · simpa [cancelCalls] using h
      · rcases h4n _ h with h | ⟨j, hj, h⟩
        · cases h
        · cases h; exact hj
    omega
  · intro timeout
    apply wait_idle
    rw [h2]

/-- Witness of C7 (amended): four submitted operations, one refused cancellation request,
and four cancelled callbacks of actual length 0 over two dispatch calls. -/
theorem cancel_drains_round_witness :
    (∀ v : World,
      LibUsbChunkedBulkTransfer.cancel ⟨fun _ => 0, fun i => if i = 2 then -5 else 0, 1000⟩ v =
        wait ⟨fun _ => 0, fun i => if i = 2 then -5 else 0, 1000⟩ 1000
          ⟨v.d, v.calls ++ cancelCalls v.d.pending.toNat, v.script⟩) ∧
    ∃ w2, LibUsbChunkedBulkTransfer.cancel ⟨fun _ => 0, fun i => if i = 2 then -5 else 0, 1000⟩
        ⟨freshRound (construct 7 129 4096 1000 256 0) 4, submitCalls 4,
          [⟨[⟨7, 129, 4864, 232, 0, TransferStatus.cancelled, 0⟩,
              ⟨7, 129, 4096, 256, 0, TransferStatus.cancelled, 0⟩], 0, 2⟩,
            ⟨[⟨7, 129, 4352, 256, 0, TransferStatus.cancelled, 0⟩,
              ⟨7, 129, 4608, 256, 0, TransferStatus.cancelled, 0⟩], 0, 4⟩]⟩ = some w2 ∧
      w2.d.completed = 1 ∧ w2.d.actualLength = 0 ∧ w2.d.pending = 0 ∧ w2.d.done = (4 : Nat) ∧
      w2.d.transfers = (freshRound (construct 7 129 4096 1000 256 0) 4).transfers ∧
      (∃ extra, w2.calls = submitCalls 4 ++ cancelCalls 4 ++ extra ∧
        (∀ c ∈ extra, PollingCall 4 c) ∧
        ∀ i, DriverCall.cancelTransfer i ∈ cancelCalls 4 ++ extra →
          i < (freshRound (construct 7 129 4096 1000 256 0) 4).transfers.length) ∧
      ∀ timeout, wait ⟨fun _ => 0, fun i => if i = 2 then -5 else 0, 1000⟩ timeout w2 = some w2 :=
  cancel_drains_round ⟨fun _ => 0, fun i => if i = 2 then -5 else 0, 1000⟩
    ⟨freshRound (construct 7 129 4096 1000 256 0) 4, submitCalls 4,
      [⟨[⟨7, 129, 4864, 232, 0, TransferStatus.cancelled, 0⟩,
          ⟨7, 129, 4096, 256, 0, TransferStatus.cancelled, 0⟩], 0, 2⟩,
        ⟨[⟨7, 129, 4352, 256, 0, TransferStatus.cancelled, 0⟩,
          ⟨7, 129, 4608, 256, 0, TransferStatus.cancelled, 0⟩], 0, 4⟩]⟩
    4 (by decide) (by decide) (by decide) (by decide) (by decide) (by decide) (by decide)
    (by decide)

end Round

/-! ## Properties of the plan -/

section PlanProperties

open LibUsbChunkedBulkTransferPrivate LibUsbChunkedBulkTransfer

/-- The chunk plan when `length + chunk - 1` does not wrap and `chunk` fits an `int`:
for `chunk ≥ 1` the constructor builds `ceil(length / chunk)` descriptors (none when
`length = 0`), laid out back to back from `buffer`; every descriptor but the last has
length `chunk`, the last has a length between 1 and `chunk`, and the lengths sum to
`length`. -/
theorem construct_plan_without_wrap (dev endpoint : Nat) (buffer : Int)
    (length chunk timeout : Nat) (hc : 1 ≤ chunk) (hint : chunk ≤ INT_MAX)
    (hfit : length + chunk - 1 < 2 ^ 64) :
    (construct dev endpoint buffer length chunk timeout).transfers.length
        = length / chunk + (if length % chunk = 0 then 0 else 1) ∧
      (length = 0 → (construct dev endpoint buffer length chunk timeout).transfers = []) ∧
      (((construct dev endpoint buffer length chunk timeout).transfers).map
        Transfer.length).sum = (length : Int) ∧
      ∀ i t, (construct dev endpoint buffer length chunk timeout).transfers[i]? = some t →
        t.buffer = buffer + ((i * chunk : Nat) : Int) ∧
        (i + 1 < (construct dev endpoint buffer length chunk timeout).transfers.length →
          t.length = (chunk : Int)) ∧
        (i + 1 = (construct dev endpoint buffer length chunk timeout).transfers.length →
          1 ≤ t.length ∧ t.length ≤ (chunk : Int) ∧
            ((i * chunk : Nat) : Int) + t.length = (length : Int)) := by
  have hcount : sizeWrap (length + chunk - 1) / chunk = (length + chunk - 1) / chunk := by
    rw [sizeWrap_of_lt hfit]
  have hceil : (length + chunk - 1) / chunk
      = length / chunk + (if length % chunk = 0 then 0 else 1) := by
    have hdm := Nat.div_add_mod length chunk
    have hml := Nat.mod_lt length (by omega : chunk > 0)
    by_cases hz : length % chunk = 0
    · rw [if_pos hz]
      have hx : length + chunk - 1 = (chunk - 1) + chunk * (length / chunk) := by omega
      rw [hx, Nat.add_mul_div_left _ _ (by omega : 0 < chunk),
        Nat.div_eq_of_lt (by omega : chunk - 1 < chunk)]
      omega
    · rw [if_neg hz]
      have hx : length + chunk - 1 = (length % chunk - 1) + chunk * (length / chunk + 1) := by
        rw [Nat.mul_add]
        omega
      rw [hx, Nat.add_mul_div_left _ _ (by omega : 0 < chunk),
        Nat.div_eq_of_lt (by omega : length % chunk - 1 < chunk)]
      omega
  have hlen : (construct dev endpoint buffer length chunk timeout).transfers.length
      = (length + chunk - 1) / chunk := by
    simp [construct, length_fillTransfers, hcount]
  refine ⟨by rw [hlen, hceil], ?_, ?_, ?_⟩
  · intro h0
    subst h0
    exact construct_zero_length dev endpoint buffer chunk timeout hc
  · simp only [construct, sum_length_fillTransfers _ _ _ _ hint, hcount]
    have h1 := length_le_count_mul length hc
    have h2 : min ((length + chunk - 1) / chunk * chunk) length = length := by omega
    rw [h2]
  · intro i t ht
    have hi : i < sizeWrap (length + chunk - 1) / chunk := by
      have h := (List.getElem?_eq_some_iff.1 ht).1
      simpa [construct, length_fillTransfers] using h
    have hlt := mul_lt_of_lt_count hc hi
    simp only [construct] at ht
    rw [getElem?_fillTransfers _ _ _ _ _ _ _ _ hi] at ht
    simp only [Option.some.injEq] at ht
    subst ht
    rw [hlen]
    have hb : min (i * chunk) length = i * chunk := by omega
    simp only [toInt32_size hint, hb]
    refine ⟨trivial, ?_, ?_⟩
    · intro hnext
      have h2 : i + 1 + 1 ≤ (length + chunk - 1) / chunk := hnext
      have h3 : (i + 1 + 1) * chunk ≤ length + chunk - 1 :=
        (Nat.le_div_iff_mul_le (by omega)).1 h2
      have hmul : (i + 1 + 1) * chunk = i * chunk + chunk + chunk := by ring
      have hm : min chunk (length - i * chunk) = chunk := by omega
      rw [hm]
    · intro hlast
      have h3 := length_le_count_mul length hc
      rw [← hlast] at h3
      have hmul : (i + 1) * chunk = i * chunk + chunk := Nat.succ_mul i chunk
      have hm : 1 ≤ min chunk (length - i * chunk) ∧ min chunk (length - i * chunk) ≤ chunk ∧
          i * chunk + min chunk (length - i * chunk) = length := by omega
      exact ⟨by exact_mod_cast hm.1, by exact_mod_cast hm.2.1, by exact_mod_cast hm.2.2⟩

/-- Witness of the plan property: `length = 1000`, `chunk = 256`. -/
theorem construct_plan_without_wrap_witness :
    (construct 7 129 4096 1000 256 0).transfers.length
        = 1000 / 256 + (if 1000 % 256 = 0 then 0 else 1) ∧
      (1000 = 0 → (construct 7 129 4096 1000 256 0).transfers = []) ∧
      (((construct 7 129 4096 1000 256 0).transfers).map Transfer.length).sum
        = ((1000 : Nat) : Int) ∧
      ∀ i t, (construct 7 129 4096 1000 256 0).transfers[i]? = some t →
        t.buffer = 4096 + ((i * 256 : Nat) : Int) ∧
        (i + 1 < (construct 7 129 4096 1000 256 0).transfers.length →
          t.length = ((256 : Nat) : Int)) ∧
        (i + 1 = (construct 7 129 4096 1000 256 0).transfers.length →
          1 ≤ t.length ∧ t.length ≤ ((256 : Nat) : Int) ∧
            ((i * 256 : Nat) : Int) + t.length = ((1000 : Nat) : Int)) :=
  construct_plan_without_wrap 7 129 4096 1000 256 0 (by decide) (by decide) (by decide)

/-- The chunk lengths of the plan for `length = 1000`, `chunk = 256`. -/
theorem construct_plan_example :
    ((construct 7 129 4096 1000 256 0).transfers).map Transfer.length = [256, 256, 256, 232] := by
  decide

/-- C1 at `length = 10`, `chunk = SIZE_MAX`: both arguments are values of `size_t` and
`chunk ≥ 1`, the sum `length + chunk - 1` wraps to 8, and the constructor builds no
descriptor, where `ceil(length / chunk) = 1` descriptor of length 10 is due. -/
theorem construct_wraps_for_large_chunk :
    10 < 2 ^ 64 ∧ 1 ≤ SIZE_MAX ∧ SIZE_MAX < 2 ^ 64 ∧
      sizeWrap (10 + SIZE_MAX - 1) = 8 ∧
      (construct 7 129 4096 10 SIZE_MAX 0).transfers = [] ∧
      (construct 7 129 4096 10 SIZE_MAX 0).transfers.length
        ≠ 10 / SIZE_MAX + (if 10 % SIZE_MAX = 0 then 0 else 1) ∧
      (((construct 7 129 4096 10 SIZE_MAX 0).transfers).map Transfer.length).sum ≠ 10 := by
  decide

theorem buffer_eq_none_iff (w : World) : buffer w = none ↔ w.d.transfers = [] := by
  unfold buffer
  cases w.d.transfers <;> simp

/-- C10 at `length = 10`, `chunk = SIZE_MAX`: `length ≥ 1`, yet the plan is empty and
`buffer()` has no result. -/
theorem buffer_undefined_on_wrapped_plan :
    1 ≤ 10 ∧ 1 ≤ SIZE_MAX ∧ SIZE_MAX < 2 ^ 64 ∧
      (create 7 129 4096 10 SIZE_MAX 0 []).d.transfers = [] ∧
      buffer (create 7 129 4096 10 SIZE_MAX 0 []) = none := by
  decide

/-- The accessor `buffer` has a result exactly on a non-empty plan, and then it is the
start address of descriptor 0.  A default-constructed coordinator and a coordinator
built with `length = 0` have an empty plan and no result; a coordinator built with
`length ≥ 1` and no wrap of `length + chunk - 1` yields the base address. -/
theorem buffer_defined_iff_plan_nonempty (w : World) (script : List Dispatch)
    (dev endpoint : Nat) (base : Int) (length chunk timeout : Nat) (hc : 1 ≤ chunk) :
    (buffer w = none ↔ w.d.transfers = []) ∧
      (∀ a, buffer w = some a ↔ ∃ t, w.d.transfers[0]? = some t ∧ t.buffer = a) ∧
      buffer (LibUsbChunkedBulkTransfer.default script) = none ∧
      buffer (create dev endpoint base 0 chunk timeout script) = none ∧
      (1 ≤ length → length + chunk - 1 < 2 ^ 64 →
        buffer (create dev endpoint base length chunk timeout script) = some base) := by
  refine ⟨buffer_eq_none_iff w, ?_, rfl, ?_, ?_⟩
  · intro a
    unfold buffer
    cases w.d.transfers <;> simp
  · rw [buffer_eq_none_iff]
    exact construct_zero_length dev endpoint base chunk timeout hc
  · intro hl hfit
    have hpos : 0 < sizeWrap (length + chunk - 1) / chunk := by
      rw [sizeWrap_of_lt hfit]
      apply Nat.div_pos <;> omega
    have h := getElem?_fillTransfers dev endpoint chunk timeout _ base length 0 hpos
    unfold buffer create
    simp only [construct]
    cases hts : fillTransfers dev endpoint chunk timeout (sizeWrap (length + chunk - 1) / chunk)
        base length with
    | nil => rw [hts] at h; simp at h
    | cons t rest =>
      rw [hts] at h
      simp only [List.getElem?_cons_zero, Option.some.injEq] at h
      subst h
      simp

/-- Witness of the `buffer` property. -/
theorem buffer_defined_iff_plan_nonempty_witness :
    (buffer (create 7 129 4096 1000 256 0 []) = none ↔
        (create 7 129 4096 1000 256 0 []).d.transfers = []) ∧
      (∀ a, buffer (create 7 129 4096 1000 256 0 []) = some a ↔
        ∃ t, (create 7 129 4096 1000 256 0 []).d.transfers[0]? = some t ∧ t.buffer = a) ∧
      buffer (LibUsbChunkedBulkTransfer.default []) = none ∧
      buffer (create 7 129 4096 0 256 0 []) = none ∧
      (1 ≤ 1000 → 1000 + 256 - 1 < 2 ^ 64 →
        buffer (create 7 129 4096 1000 256 0 []) = some 4096) :=
  buffer_defined_iff_plan_nonempty (create 7 129 4096 1000 256 0 []) [] 7 129 4096 1000 256 0
    (by decide)

/-- C9 at `chunk = 4294967301` (`2 ^ 32 + 5`, beyond `INT_MAX`) and `length = 2 * chunk`:
the constructor starts the two operations at `4096` and `4096 + chunk`, but each
descriptor's `int` length is 5, so `setBuffer 8192` starts operation 1 at `8197`, not at
`8192 + chunk`. -/
theorem setBuffer_rebinds_counterexample :
    1 ≤ 4294967301 ∧
      ((create 7 129 4096 8589934602 4294967301 0 []).d.transfers).map Transfer.buffer
        = [4096, 4096 + 4294967301] ∧
      ((create 7 129 4096 8589934602 4294967301 0 []).d.transfers).map Transfer.length
        = [5, 5] ∧
      ((setBuffer 8192 (create 7 129 4096 8589934602 4294967301 0 [])).d.transfers).map
        Transfer.buffer = [8192, 8197] ∧
      (8197 : Int) ≠ 8192 + 1 * 4294967301 := by
  decide

/-- The rebinding of C9 where no length is narrowed: on the plan built from
`(base, length, chunk ≥ 1)` with `chunk` in the range of `int` (or with a single
descriptor, `length ≤ chunk`), `setBuffer newBase` gives
operation `i` the start `newBase + i * chunk`, which is `newBase` plus the lengths of the
operations before `i` and mirrors the start `base + i * chunk` the constructor gave it;
every other field of every descriptor, the number of descriptors, the tracker, the
driver calls made and the pending dispatch calls are unchanged, and on a non-empty plan
`buffer()` then returns `newBase`. -/
theorem setBuffer_rebinds_plan (dev endpoint : Nat) (base : Int) (length chunk timeout : Nat)
    (hc : 1 ≤ chunk) (hnarrow : chunk ≤ INT_MAX ∨ length ≤ chunk) (w : World)
    (hplan : w.d.transfers = (construct dev endpoint base length chunk timeout).transfers)
    (newBase : Int) :
    (setBuffer newBase w).d.transfers.length = w.d.transfers.length ∧
      (setBuffer newBase w).d.done = w.d.done ∧
      (setBuffer newBase w).d.pending = w.d.pending ∧
      (setBuffer newBase w).d.completed = w.d.completed ∧
      (setBuffer newBase w).d.actualLength = w.d.actualLength ∧
      (setBuffer newBase w).calls = w.calls ∧ (setBuffer newBase w).script = w.script ∧
      (∀ i t, w.d.transfers[i]? = some t →
        t.buffer = base + ((i * chunk : Nat) : Int) ∧
        ((w.d.transfers.take i).map Transfer.length).sum = ((i * chunk : Nat) : Int) ∧
        (setBuffer newBase w).d.transfers[i]?
          = some { t with buffer := newBase + ((i * chunk : Nat) : Int) }) ∧
      (w.d.transfers ≠ [] → buffer (setBuffer newBase w) = some newBase) := by
  have hall : ∀ i t, w.d.transfers[i]? = some t →
      t.buffer = base + ((i * chunk : Nat) : Int) ∧
      ((w.d.transfers.take i).map Transfer.length).sum = ((i * chunk : Nat) : Int) ∧
      (setBuffer newBase w).d.transfers[i]?
        = some { t with buffer := newBase + ((i * chunk : Nat) : Int) } := by
    intro i t ht
    have hset := getElem?_setBufferLoop w.d.transfers newBase i t ht
    have hi : i < sizeWrap (length + chunk - 1) / chunk := by
      have h := (List.getElem?_eq_some_iff.1 ht).1
      simpa [hplan, construct, length_fillTransfers] using h
    have hlt := mul_lt_of_lt_count hc hi
    have hb : min (i * chunk) length = i * chunk := by omega
    have hsum : ((w.d.transfers.take i).map Transfer.length).sum = ((i * chunk : Nat) : Int) := by
      rcases hnarrow with hint | hle
      · rw [hplan]
        simp only [construct]
        rw [take_fillTransfers _ _ _ _ _ _ _ i (by omega),
          sum_length_fillTransfers _ _ _ _ hint, hb]
      · have h1 := count_le_one_of_le_chunk hc hle
        have h0 : i = 0 := by omega
        subst h0
        simp
    rw [hsum] at hset
    refine ⟨?_, hsum, hset⟩
    rw [hplan] at ht
    simp only [construct] at ht
    rw [getElem?_fillTransfers _ _ _ _ _ _ _ _ hi] at ht
    simp only [Option.some.injEq] at ht
    subst ht
    simp only [hb]
  refine ⟨length_setBufferLoop _ _, rfl, rfl, rfl, rfl, rfl, rfl, hall, ?_⟩
  intro hne
  cases hts : w.d.transfers with
  | nil => exact absurd hts hne
  | cons t rest =>
    have h0 : w.d.transfers[0]? = some t := by rw [hts]; simp
    have h := (hall 0 t h0).2.2
    unfold buffer
    cases hs : (setBuffer newBase w).d.transfers with
    | nil => rw [hs] at h; simp at h
    | cons t2 rest2 =>
      rw [hs] at h
      simp only [List.getElem?_cons_zero, Option.some.injEq] at h
      subst h
      simp

/-- Witness of the rebinding: the plan for 1000 bytes in chunks of 256, rebound from
4096 to 8192. -/
theorem setBuffer_rebinds_plan_witness :
    (setBuffer 8192 (create 7 129 4096 1000 256 0 [])).d.transfers.length
        = (create 7 129 4096 1000 256 0 []).d.transfers.length ∧
      (setBuffer 8192 (create 7 129 4096 1000 256 0 [])).d.done
        = (create 7 129 4096 1000 256 0 []).d.done ∧
      (setBuffer 8192 (create 7 129 4096 1000 256 0 [])).d.pending
        = (create 7 129 4096 1000 256 0 []).d.pending ∧
      (setBuffer 8192 (create 7 129 4096 1000 256 0 [])).d.completed
        = (create 7 129 4096 1000 256 0 []).d.completed ∧
      (setBuffer 8192 (create 7 129 4096 1000 256 0 [])).d.actualLength
        = (create 7 129 4096 1000 256 0 []).d.actualLength ∧
      (setBuffer 8192 (create 7 129 4096 1000 256 0 [])).calls
        = (create 7 129 4096 1000 256 0 []).calls ∧
      (setBuffer 8192 (create 7 129 4096 1000 256 0 [])).script
        = (create 7 129 4096 1000 256 0 []).script ∧
      (∀ i t, (create 7 129 4096 1000 256 0 []).d.transfers[i]? = some t →
        t.buffer = 4096 + ((i * 256 : Nat) : Int) ∧
        (((create 7 129 4096 1000 256 0 []).d.transfers.take i).map Transfer.length).sum
          = ((i * 256 : Nat) : Int) ∧
        (setBuffer 8192 (create 7 129 4096 1000 256 0 [])).d.transfers[i]?
          = some { t with buffer := 8192 + ((i * 256 : Nat) : Int) }) ∧
      ((create 7 129 4096 1000 256 0 []).d.transfers ≠ [] →
        buffer (setBuffer 8192 (create 7 129 4096 1000 256 0 [])) = some 8192) :=
  setBuffer_rebinds_plan 7 129 4096 1000 256 0 (by decide) (Or.inl (by decide))
    (create 7 129 4096 1000 256 0 []) rfl 8192

/-- The rebound plan for 1000 bytes in chunks of 256, in numbers. -/
theorem setBuffer_rebinds_example :
    ((setBuffer 8192 (create 7 129 4096 1000 256 0 [])).d.transfers).map Transfer.buffer
        = [8192, 8448, 8704, 8960] ∧
      ((setBuffer 8192 (create 7 129 4096 1000 256 0 [])).d.transfers).map Transfer.length
        = [256, 256, 256, 232] ∧
      buffer (setBuffer 8192 (create 7 129 4096 1000 256 0 [])) = some 8192 := by
  decide

end PlanProperties

/-! ## The tracker invariant -/

section Invariant

open LibUsbChunkedBulkTransferPrivate LibUsbChunkedBulkTransfer

/-- C5, as stated, fails once `wait` has reset `pending`: on a plan of one operation,
after `submit`, the completion callback and the reset at the end of `wait`, the tracker
has `done = 1` and `pending = 0`, and no further `submit` has run.  The same state is the
result of `transfer()`. -/
theorem done_le_pending_counterexample :
    (∃ s, Reachable (construct 7 129 4096 1 1 0) s ∧ s.started = true ∧
        s.d.done = 1 ∧ s.d.pending = 0 ∧ ¬ (s.d.done ≤ s.d.pending)) ∧
      ∃ w2, transfer ⟨fun _ => 0, fun _ => 0, 1000⟩
          (create 7 129 4096 1 1 0 [⟨[⟨7, 129, 4096, 1, 0, TransferStatus.completed, 1⟩], 0, 1⟩])
          = some w2 ∧
        w2.d.done = 1 ∧ w2.d.pending = 0 ∧ ¬ (w2.d.done ≤ w2.d.pending) := by
  constructor
  · refine ⟨⟨{ freshRound (construct 7 129 4096 1 1 0) 0 with
        done := 1, completed := 1, actualLength := 1 }, 0, false, true⟩, ?_, rfl, rfl, rfl,
      by decide⟩
    have h1 : Reachable (construct 7 129 4096 1 1 0)
        ⟨resetTracker (construct 7 129 4096 1 1 0), 0, true, true⟩ :=
      Reachable.step Reachable.init (Step.submitReset _ rfl)
    have h2 := Reachable.step h1 (Step.submitAccept _ rfl)
    have h3 := Reachable.step h2
      (Step.complete _ ⟨7, 129, 4096, 1, 0, TransferStatus.completed, 1⟩ (by decide))
    have h4 := Reachable.step h3 (Step.waitReset _ (by decide) (by decide))
    exact h4
  · exact ⟨⟨{ freshRound (construct 7 129 4096 1 1 0) 0 with
        done := 1, completed := 1, actualLength := 1 },
      [DriverCall.submitTransfer 0, DriverCall.handleEvents], []⟩, by decide, by decide,
      by decide, by decide⟩

theorem session_invariant (d0 : LibUsbChunkedBulkTransferPrivate)
    (h0 : 0 ≤ d0.done) (s : Session) (hr : Reachable d0 s) :
    0 ≤ s.d.done ∧
      (s.roundOpen = true → s.d.done + s.outstanding = s.d.pending) ∧
      (s.started = true → s.roundOpen = false → s.d.pending = 0) ∧
      (s.started = false → s.roundOpen = false ∧ s.outstanding = 0) := by
  induction hr with
  | init => exact ⟨h0, by simp, by simp, by simp⟩
  | step hprev hstep ih =>
    obtain ⟨i1, i2, i3, i4⟩ := ih
    cases hstep with
    | submitReset h => exact ⟨by simp [resetTracker], by simp [resetTracker], by simp, by simp⟩
    | submitAccept h =>
      refine ⟨i1, ?_, ?_, ?_⟩
      · intro _
        have := i2 h
        simp only [Nat.cast_add, Nat.cast_one]
        omega
      · intro _ hc
        simp only at hc
        rw [h] at hc
        cases hc
      · intro hs
        simp only at hs
        have := (i4 hs).1
        rw [h] at this
        cases this
    | complete t h =>
      rw [callback_eq]
      refine ⟨by simp only; omega, ?_, ?_, ?_⟩
      · intro ho
        have := i2 ho
        simp only
        omega
      · intro hs ho
        exact i3 hs ho
      · intro hs
        have := (i4 hs).2
        omega
    | waitReset hp hc =>
      refine ⟨i1, by simp, by simp, ?_⟩
      intro hs
      exact ⟨rfl, (i4 hs).2⟩
    | rebind ts => exact ⟨i1, i2, i3, i4⟩

/-- C5 (amended): in every state reachable from construction through the resets and
acceptances of `submit`, the completion callbacks (one per accepted operation) and the
reset at the end of `wait`, as long as the round opened by `submit` has not been closed
by that reset, `0 ≤ done`, `done` plus the operations still owed a callback equals
`pending`, and so `done ≤ pending`.  After the reset of `wait`, and until the next
`submit`, `pending = 0` while `done` keeps its non-negative count. -/
theorem done_le_pending_while_round_open (dev endpoint : Nat) (buffer : Int)
    (length chunk timeout : Nat)
    (s : Session) (hr : Reachable (construct dev endpoint buffer length chunk timeout) s) :
    (s.roundOpen = true →
        0 ≤ s.d.done ∧ s.d.done + s.outstanding = s.d.pending ∧ s.d.done ≤ s.d.pending) ∧
      (s.started = true → s.roundOpen = false → s.d.pending = 0 ∧ 0 ≤ s.d.done) := by
  obtain ⟨i1, i2, i3, _⟩ :=
    session_invariant (construct dev endpoint buffer length chunk timeout) (le_refl _) s hr
  refine ⟨?_, fun hs ho => ⟨i3 hs ho, i1⟩⟩
  intro ho
  have := i2 ho
  exact ⟨i1, this, by omega⟩

/-- Witness of C5 (amended): the state after `submit` accepted the two operations of a
plan and the first completion arrived. -/
theorem done_le_pending_while_round_open_witness :
    ((⟨{ freshRound (construct 7 129 4096 512 256 0) 2 with
            done := 1, actualLength := 256 }, 1, true, true⟩ : Session).roundOpen = true →
        0 ≤ (⟨{ freshRound (construct 7 129 4096 512 256 0) 2 with
            done := 1, actualLength := 256 }, 1, true, true⟩ : Session).d.done ∧
        (⟨{ freshRound (construct 7 129 4096 512 256 0) 2 with
            done := 1, actualLength := 256 }, 1, true, true⟩ : Session).d.done +
          (⟨{ freshRound (construct 7 129 4096 512 256 0) 2 with
            done := 1, actualLength := 256 }, 1, true, true⟩ : Session).outstanding =
          (⟨{ freshRound (construct 7 129 4096 512 256 0) 2 with
            done := 1, actualLength := 256 }, 1, true, true⟩ : Session).d.pending ∧
        (⟨{ freshRound (construct 7 129 4096 512 256 0) 2 with
            done := 1, actualLength := 256 }, 1, true, true⟩ : Session).d.done ≤
          (⟨{ freshRound (construct 7 129 4096 512 256 0) 2 with
            done := 1, actualLength := 256 }, 1, true, true⟩ : Session).d.pending) ∧
      ((⟨{ freshRound (construct 7 129 4096 512 256 0) 2 with
            done := 1, actualLength := 256 }, 1, true, true⟩ : Session).started = true →
        (⟨{ freshRound (construct 7 129 4096 512 256 0) 2 with
            done := 1, actualLength := 256 }, 1, true, true⟩ : Session).roundOpen = false →
        (⟨{ freshRound (construct 7 129 4096 512 256 0) 2 with
            done := 1, actualLength := 256 }, 1, true, true⟩ : Session).d.pending = 0 ∧
        0 ≤ (⟨{ freshRound (construct 7 129 4096 512 256 0) 2 with
            done := 1, actualLength := 256 }, 1, true, true⟩ : Session).d.done) :=
  done_le_pending_while_round_open 7 129 4096 512 256 0
    ⟨{ freshRound (construct 7 129 4096 512 256 0) 2 with done := 1, actualLength := 256 },
      1, true, true⟩
    (Reachable.step
      (Reachable.step
        (Reachable.step
          (Reachable.step Reachable.init (Step.submitReset _ rfl))
          (Step.submitAccept _ rfl))
        (Step.submitAccept _ rfl))
      (Step.complete _ ⟨7, 129, 4096, 256, 0, TransferStatus.completed, 256⟩ (by decide)))

/-! ### Runs of the methods are paths of the transition system -/

theorem reachable_of_steps {d0 : LibUsbChunkedBulkTransferPrivate} {s s2 : Session}
    (hr : Reachable d0 s) (hs : Relation.ReflTransGen Step s s2) : Reachable d0 s2 := by
  induction hs with
  | refl => exact hr
  | tail _ hstep ih => exact Reachable.step ih hstep

theorem steps_accept (n : Nat) : ∀ (d : LibUsbChunkedBulkTransferPrivate) (k : Nat) (st : Bool),
    Relation.ReflTransGen Step ⟨d, k, true, st⟩
      ⟨{ d with pending := d.pending + n }, k + n, true, st⟩ := by
  induction n with
  | zero =>
    intro d k st
    have hd : ({ d with pending := d.pending + ((0 : Nat) : Int) }
        : LibUsbChunkedBulkTransferPrivate) = d := by simp
    rw [hd]
    exact Relation.ReflTransGen.refl
  | succ m ih =>
    intro d k st
    have h := Step.submitAccept ⟨{ d with pending := d.pending + m }, k + m, true, st⟩ rfl
    have hd : ({ d with pending := d.pending + ((m + 1 : Nat) : Int) }
        : LibUsbChunkedBulkTransferPrivate) =
        { ({ d with pending := d.pending + m } : LibUsbChunkedBulkTransferPrivate) with
          pending := d.pending + m + 1 } := by
      simp [add_assoc]
    rw [hd]
    exact Relation.ReflTransGen.tail (ih d k st) h

theorem steps_complete (cs : List Transfer) :
    ∀ (d : LibUsbChunkedBulkTransferPrivate) (k : Nat) (ro st : Bool),
      Relation.ReflTransGen Step ⟨d, k + cs.length, ro, st⟩ ⟨cs.foldl callback d, k, ro, st⟩ := by
  induction cs with
  | nil => intro d k ro st; exact Relation.ReflTransGen.refl
  | cons c rest ih =>
    intro d k ro st
    have h := Step.complete ⟨d, k + (c :: rest).length, ro, st⟩ c (by simp)
    have hk : k + (c :: rest).length - 1 = k + rest.length := by simp
    simp only [hk] at h
    exact Relation.ReflTransGen.head h (ih (callback d c) k ro st)

/-- A returning `wait` is a path: completion callbacks of outstanding operations, then
the reset of `pending` (none of them when `pending = 0`), provided the driver delivers
no more callbacks than operations are outstanding. -/
theorem wait_run_is_path (driver : Driver) (timeout : Nat) (w w2 : World)
    (h : wait driver timeout w = some w2) (k : Nat) (hk : (delivered w.script).length ≤ k)
    (ro st : Bool) :
    ∃ m, m ≤ k ∧
      Relation.ReflTransGen Step ⟨w.d, k, ro, st⟩
        ⟨w2.d, k - m, ro && decide (w.d.pending = 0), st⟩ := by
  by_cases hp : w.d.pending = 0
  · rw [wait_idle _ _ _ hp] at h
    cases h
    exact ⟨0, by omega, by simp [hp]; exact Relation.ReflTransGen.refl⟩
  · obtain ⟨consumed, extra, h1, h2, _, _, h5⟩ := wait_busy driver timeout w w2 hp h
    have hm : (delivered consumed).length ≤ k := by
      rw [h1, delivered_append, List.length_append] at hk
      omega
    refine ⟨(delivered consumed).length, hm, ?_⟩
    have hpath := steps_complete (delivered consumed) w.d (k - (delivered consumed).length) ro st
    rw [Nat.sub_add_cancel hm] at hpath
    have hreset := Step.waitReset
      ⟨(delivered consumed).foldl callback w.d, k - (delivered consumed).length, ro, st⟩
      (by rw [foldl_callback]; exact hp) h5
    rw [h2]
    simp only [hp, decide_False, Bool.and_false]
    exact Relation.ReflTransGen.tail hpath hreset

/-- A returning `transfer()` on a plan the driver accepts in full is a path of the
transition system, for a driver that delivers at most one callback per operation. -/
theorem transfer_run_is_path (driver : Driver) (w w2 : World)
    (hacc : ∀ i, i < w.d.transfers.length → driver.submitRc i = 0)
    (hdrv : (delivered w.script).length ≤ w.d.transfers.length)
    (h : transfer driver w = some w2) (ro st : Bool) :
    ∃ m, Relation.ReflTransGen Step ⟨w.d, 0, ro, st⟩
      ⟨w2.d, m, decide (w.d.transfers.length = 0), true⟩ := by
  unfold transfer at h
  rw [submit_all_accepted driver w hacc] at h
  simp only [Option.bind_eq_bind, Option.some_bind] at h
  obtain ⟨m, _, hpath⟩ := wait_run_is_path driver driver.waitDefault _ w2 h
    w.d.transfers.length hdrv true true
  refine ⟨w.d.transfers.length - m, ?_⟩
  have hreset := Step.submitReset ⟨w.d, 0, ro, st⟩ rfl
  have hacc2 := steps_accept w.d.transfers.length (resetTracker w.d) 0 true
  have hfresh : ({ resetTracker w.d with
      pending := (resetTracker w.d).pending + (w.d.transfers.length : Int) }
        : LibUsbChunkedBulkTransferPrivate) = freshRound w.d w.d.transfers.length := by
    simp [freshRound, resetTracker]
  rw [hfresh, Nat.zero_add] at hacc2
  have hflag : (true && decide ((freshRound w.d w.d.transfers.length).pending = 0))
      = decide (w.d.transfers.length = 0) := by
    simp [freshRound]
  dsimp only at hpath
  rw [hflag] at hpath
  exact (Relation.ReflTransGen.head hreset hacc2).trans hpath

/-- A returning `submit` whose `k`-th submission is the first the driver rejects is a
path of the transition system, for a driver that delivers at most one callback per
accepted operation. -/
theorem rejected_submit_run_is_path (driver : Driver) (w w2 : World) (k : Nat) (hk : 1 ≤ k)
    (hkn : k ≤ w.d.transfers.length) (hacc : ∀ i, i + 1 < k → driver.submitRc i = 0)
    (hrej : driver.submitRc (k - 1) ≠ 0)
    (hdrv : (delivered w.script).length ≤ k - 1)
    (h : submit driver w = some w2) (ro st : Bool) :
    ∃ m, Relation.ReflTransGen Step ⟨w.d, 0, ro, st⟩ ⟨w2.d, m, decide (k - 1 = 0), true⟩ := by
  rw [submit_rejected_at driver w k hk hkn hacc hrej] at h
  obtain ⟨m, _, hpath⟩ := wait_run_is_path driver driver.waitDefault _ w2 h (k - 1) hdrv true true
  refine ⟨k - 1 - m, ?_⟩
  have hreset := Step.submitReset ⟨w.d, 0, ro, st⟩ rfl
  have hacc2 := steps_accept (k - 1) (resetTracker w.d) 0 true
  have hfresh : ({ resetTracker w.d with
      pending := (resetTracker w.d).pending + ((k - 1 : Nat) : Int) }
        : LibUsbChunkedBulkTransferPrivate) = freshRound w.d (k - 1) := by
    simp [freshRound, resetTracker]
  rw [hfresh, Nat.zero_add] at hacc2
  have hflag : (true && decide ((freshRound w.d (k - 1)).pending = 0))
      = decide (k - 1 = 0) := by
    simp [freshRound]
  dsimp only at hpath
  rw [hflag] at hpath
  exact (Relation.ReflTransGen.head hreset hacc2).trans hpath

end Invariant

end LibUsbChunked
